import Mathlib

/-!
# Verification of `precisionlife_fastjsonschema/ref_resolver.py`

A shallow embedding, in Lean 4, of the reference-resolver module of the
`precisionlife-fastjsonschema` repository, together with proofs settling the
frozen claims about it.

The module under verification calls into Python's `urllib.parse` (CPython
3.11: `urlsplit`, `urlunsplit`, `urlparse`, `urlunparse`, `urljoin`,
`urldefrag`, `unquote`), so those library functions are embedded here as
well, translated from the CPython 3.11 sources.  Strings are Lean `String`s
(sequences of unicode scalar values, as in Python); bytes arising from
percent-decoding are `Nat`s below 256.

Conventions:
* Python exceptions are modeled by the `PyErr` sum type; fallible code
  returns `Except PyErr _`.
* JSON documents (schemas) are modeled by the `Value` type; Python `dict`s
  become insertion-ordered association lists with unique keys.
* Mutation of the resolver object is modeled by explicit state passing of a
  `RefResolver` structure; `try/finally` blocks become unconditional state
  restoration on every branch of the translated control flow.
-/

namespace FastJsonSchema

/-! ## Character helpers (ASCII classes used by the Python code) -/

def isAsciiUpper (c : Char) : Bool := 65 ≤ c.toNat && c.toNat ≤ 90

def isAsciiLower (c : Char) : Bool := 97 ≤ c.toNat && c.toNat ≤ 122

def isAsciiAlpha (c : Char) : Bool := isAsciiUpper c || isAsciiLower c

def isAsciiDigit (c : Char) : Bool := 48 ≤ c.toNat && c.toNat ≤ 57

def isAsciiAlnum (c : Char) : Bool := isAsciiAlpha c || isAsciiDigit c

/-- Lower-case an ASCII letter, leaving every other character unchanged.
The Python code only ever lower-cases strings whose characters are ASCII
(URL schemes, and sanitized identifiers), where `str.lower` agrees with
ASCII lowering. -/
def asciiLower (c : Char) : Char :=
  if isAsciiUpper c then Char.ofNat (c.toNat + 32) else c

/-- Value of a hexadecimal digit (`0-9a-fA-F`), `none` otherwise. -/
def hexVal (c : Char) : Option Nat :=
  if isAsciiDigit c then some (c.toNat - 48)
  else if 97 ≤ c.toNat && c.toNat ≤ 102 then some (c.toNat - 87)
  else if 65 ≤ c.toNat && c.toNat ≤ 70 then some (c.toNat - 55)
  else none

/-- Is the first list a leading segment of the second (`str.startswith`)? -/
def leadsWith : List Char → List Char → Bool
  | [], _ => true
  | _ :: _, [] => false
  | a :: as, b :: bs => a == b && leadsWith as bs

/-- Python's substring test `needle in hay`. -/
def subList (needle : List Char) : List Char → Bool
  | [] => leadsWith needle []
  | b :: bs => leadsWith needle (b :: bs) || subList needle bs

/-! ## Decimal rendering of naturals (Python `f"{idx}"`) -/

/-- The character for a decimal digit `d < 10`. -/
def digitCh (d : Nat) : Char := Char.ofNat (48 + d)

/-- Decimal representation of a natural number, as produced by Python's
string formatting of a non-negative `int`. -/
def natRepr (n : Nat) : String :=
  if n = 0 then "0" else String.mk (((Nat.digits 10 n).map digitCh).reverse)

/-! ## UTF-8 (Python `bytes.decode('utf-8', 'replace')`) -/

/-- The replacement character U+FFFD. -/
def replacementChar : Char := '�'

/-- A `Char` from a code point, falling back to U+FFFD on invalid input
(all call sites below produce valid non-surrogate code points). -/
def mkChar (n : Nat) : Char :=
  if n.isValidChar then Char.ofNat n else replacementChar

def isUtf8Cont (b : Nat) : Bool := 128 ≤ b && b ≤ 191

/-- Is `b2` a valid second byte after the three-byte leader `b`?
(CPython's strict UTF-8 decoder: `E0` needs `A0-BF`, `ED` needs `80-9F`
— surrogates are rejected — otherwise `80-BF`.) -/
def validSecond3 (b b2 : Nat) : Bool :=
  if b = 0xE0 then 0xA0 ≤ b2 && b2 ≤ 0xBF
  else if b = 0xED then 0x80 ≤ b2 && b2 ≤ 0x9F
  else isUtf8Cont b2

/-- Is `b2` a valid second byte after the four-byte leader `b`?
(`F0` needs `90-BF`, `F4` needs `80-8F`, otherwise `80-BF`.) -/
def validSecond4 (b b2 : Nat) : Bool :=
  if b = 0xF0 then 0x90 ≤ b2 && b2 ≤ 0xBF
  else if b = 0xF4 then 0x80 ≤ b2 && b2 ≤ 0x8F
  else isUtf8Cont b2

/-- UTF-8 decoding with the `replace` error handler: each maximal subpart
of an ill-formed subsequence yields one U+FFFD, as CPython does.  The
`fuel` argument only drives the structural recursion: every step consumes
at least one byte and one unit of fuel, so the fuel passed by
`utf8DecodeReplace` (the byte count) is never exhausted. -/
def utf8DecodeReplaceAux : Nat → List Nat → List Char
  | 0, _ => []
  | fuel + 1, bs =>
    match bs with
    | [] => []
    | b :: rest =>
      if b < 0x80 then mkChar b :: utf8DecodeReplaceAux fuel rest
      else if 0xC2 ≤ b && b ≤ 0xDF then
        match rest with
        | b2 :: rest2 =>
          if isUtf8Cont b2 then
            mkChar ((b - 0xC0) * 64 + (b2 - 0x80)) ::
              utf8DecodeReplaceAux fuel rest2
          else replacementChar :: utf8DecodeReplaceAux fuel rest
        | [] => [replacementChar]
      else if 0xE0 ≤ b && b ≤ 0xEF then
        match rest with
        | b2 :: rest2 =>
          if validSecond3 b b2 then
            match rest2 with
            | b3 :: rest3 =>
              if isUtf8Cont b3 then
                mkChar ((b - 0xE0) * 4096 + (b2 - 0x80) * 64 + (b3 - 0x80)) ::
                  utf8DecodeReplaceAux fuel rest3
              else replacementChar :: utf8DecodeReplaceAux fuel rest2
            | [] => [replacementChar]
          else replacementChar :: utf8DecodeReplaceAux fuel rest
        | [] => [replacementChar]
      else if 0xF0 ≤ b && b ≤ 0xF4 then
        match rest with
        | b2 :: rest2 =>
          if validSecond4 b b2 then
            match rest2 with
            | b3 :: rest3 =>
              if isUtf8Cont b3 then
                match rest3 with
                | b4 :: rest4 =>
                  if isUtf8Cont b4 then
                    mkChar ((b - 0xF0) * 262144 + (b2 - 0x80) * 4096 +
                        (b3 - 0x80) * 64 + (b4 - 0x80)) ::
                      utf8DecodeReplaceAux fuel rest4
                  else replacementChar :: utf8DecodeReplaceAux fuel rest3
                | [] => [replacementChar]
              else replacementChar :: utf8DecodeReplaceAux fuel rest2
            | [] => [replacementChar]
          else replacementChar :: utf8DecodeReplaceAux fuel rest
        | [] => [replacementChar]
      else replacementChar :: utf8DecodeReplaceAux fuel rest

def utf8DecodeReplace (bs : List Nat) : List Char :=
  utf8DecodeReplaceAux bs.length bs

/-! ## `urllib.parse.unquote`

CPython's `unquote(string)` (defaults `encoding='utf-8'`, `errors='replace'`)
turns each maximal run of `%XX` escapes into bytes and decodes them with
UTF-8/replace; a `%` not followed by two hex digits stays literal.  (CPython
implements this by splitting into ASCII runs and byte-decoding each; since
ASCII bytes are never UTF-8 continuation bytes the per-escape-run
formulation below is extensionally the same.) -/

/-- Percent-decode a character list, with `acc` holding the bytes of the
current run of `%XX` escapes, flushed through the UTF-8 decoder whenever
a literal character (or the end) is reached.  As above, `fuel` (the
character count at the call site) only drives the recursion and is never
exhausted, since every step consumes at least one character. -/
def unquoteAux : Nat → List Char → List Nat → List Char
  | 0, _, acc => utf8DecodeReplace acc
  | fuel + 1, cs, acc =>
    match cs with
    | '%' :: h1 :: h2 :: rest =>
      match hexVal h1, hexVal h2 with
      | some a, some b => unquoteAux fuel rest (acc ++ [16 * a + b])
      | _, _ =>
        utf8DecodeReplace acc ++ '%' :: unquoteAux fuel (h1 :: h2 :: rest) []
    | c :: rest => utf8DecodeReplace acc ++ c :: unquoteAux fuel rest []
    | [] => utf8DecodeReplace acc

/-- `urllib.parse.unquote` with its default arguments. -/
def unquote (s : String) : String :=
  String.mk (unquoteAux s.data.length s.data [])

/-! ## `urllib.parse`: splitting and joining URLs (CPython 3.11) -/

/-- Scheme classification lists of `urllib.parse`. -/
def uses_relative : List String :=
  ["", "ftp", "http", "gopher", "nntp", "imap", "wais", "file", "https",
   "shttp", "mms", "prospero", "rtsp", "rtsps", "rtspu", "sftp", "svn",
   "svn+ssh", "ws", "wss"]

def uses_netloc : List String :=
  ["", "ftp", "http", "gopher", "nntp", "telnet", "imap", "wais", "file",
   "mms", "https", "shttp", "snews", "prospero", "rtsp", "rtsps", "rtspu",
   "rsync", "svn", "svn+ssh", "sftp", "nfs", "git", "git+ssh", "ws", "wss"]

def uses_params : List String :=
  ["", "ftp", "hdl", "prospero", "http", "imap", "https", "shttp", "rtsp",
   "rtsps", "rtspu", "sip", "sips", "mms", "sftp", "tel"]

/-- Characters allowed in a URL scheme (`urllib.parse.scheme_chars`). -/
def isSchemeChar (c : Char) : Bool :=
  isAsciiAlnum c || c = '+' || c = '-' || c = '.'

/-- Python `str.split(sep)` for a one-character separator. -/
def splitChar (sep : Char) : List Char → List (List Char)
  | [] => [[]]
  | c :: rest =>
    if c == sep then [] :: splitChar sep rest
    else
      match splitChar sep rest with
      | [] => [[c]]
      | g :: gs => (c :: g) :: gs

def strSplitOnChar (s : String) (sep : Char) : List String :=
  (splitChar sep s.data).map String.mk

/-- The result of `urlsplit`: `(scheme, netloc, path, query, fragment)`. -/
structure SplitResult where
  scheme : String
  netloc : String
  path : String
  query : String
  fragment : String
deriving DecidableEq

/-- The result of `urlparse`:
`(scheme, netloc, path, params, query, fragment)`. -/
structure ParseResult where
  scheme : String
  netloc : String
  path : String
  params : String
  query : String
  fragment : String
deriving DecidableEq

/-- Split `cs` at the first occurrence of `sep`, dropping the separator;
`none` when `sep` does not occur (Python `str.split(sep, 1)`). -/
def splitFirst (cs : List Char) (sep : Char) : List Char × List Char :=
  (cs.takeWhile (· ≠ sep), (cs.dropWhile (· ≠ sep)).drop 1)

/-- `_splitnetloc(url, 2)`: the netloc runs up to the first `/`, `?` or `#`. -/
def splitnetloc (cs : List Char) : List Char × List Char :=
  (cs.takeWhile (fun c => c ≠ '/' && c ≠ '?' && c ≠ '#'),
   cs.dropWhile (fun c => c ≠ '/' && c ≠ '?' && c ≠ '#'))

/-- Python `_WHATWG_C0_CONTROL_OR_SPACE`: code points `0x00`–`0x20`. -/
def isC0OrSpace (c : Char) : Bool := c.toNat ≤ 32

/-- `urllib.parse.urlsplit(url, scheme, allow_fragments)`.

The IPv6-bracket and netloc-NFKC validation steps of CPython (which raise
for malformed bracketed hosts) are omitted: no input in this development
contains `[` or `]` or a non-ASCII netloc. -/
def urlsplit (url : String) (scheme0 : String) (allowFragments : Bool) :
    SplitResult :=
  let cs := (url.data.dropWhile isC0OrSpace).filter
    (fun c => c ≠ '\t' && c ≠ '\r' && c ≠ '\n')
  let sc0 := ((scheme0.data.dropWhile isC0OrSpace).reverse.dropWhile
      isC0OrSpace).reverse.filter (fun c => c ≠ '\t' && c ≠ '\r' && c ≠ '\n')
  let (scheme, rest) :=
    match cs.findIdx? (· = ':') with
    | some i =>
      if 0 < i && (cs.take i).all isSchemeChar &&
          (match cs.head? with | some c => isAsciiAlpha c | none => false) then
        ((cs.take i).map asciiLower, cs.drop (i + 1))
      else (sc0, cs)
    | none => (sc0, cs)
  let (netloc, rest2) :=
    if rest.take 2 = ['/', '/'] then splitnetloc (rest.drop 2) else ([], rest)
  let (rest3, fragment) :=
    if allowFragments && rest2.contains '#' then splitFirst rest2 '#'
    else (rest2, [])
  let (path, query) :=
    if rest3.contains '?' then splitFirst rest3 '?' else (rest3, [])
  ⟨String.mk scheme, String.mk netloc, String.mk path, String.mk query,
   String.mk fragment⟩

/-- `urllib.parse.urlunsplit` (CPython 3.11 condition, which re-adds `//`
whenever the scheme customarily uses a netloc). -/
def urlunsplit (p : SplitResult) : String :=
  let url := p.path
  let url :=
    if p.netloc ≠ "" ||
        (p.scheme ≠ "" && uses_netloc.contains p.scheme &&
          url.data.take 2 ≠ ['/', '/'])
    then
      let url2 :=
        if url ≠ "" && url.data.take 1 ≠ ['/'] then "/" ++ url else url
      "//" ++ p.netloc ++ url2
    else url
  let url := if p.scheme ≠ "" then p.scheme ++ ":" ++ url else url
  let url := if p.query ≠ "" then url ++ "?" ++ p.query else url
  if p.fragment ≠ "" then url ++ "#" ++ p.fragment else url

/-- `_splitparams(url)`: split `;params` off the last path segment. -/
def splitparams (path : List Char) : List Char × List Char :=
  if path.contains '/' then
    let lastSeg := (path.reverse.takeWhile (· ≠ '/')).reverse
    if lastSeg.contains ';' then
      let (a, b) := splitFirst lastSeg ';'
      (path.take (path.length - lastSeg.length) ++ a, b)
    else (path, [])
  else if path.contains ';' then splitFirst path ';'
  else (path, [])

/-- `urllib.parse.urlparse(url, scheme, allow_fragments)`. -/
def urlparse (url : String) (scheme0 : String) (allowFragments : Bool) :
    ParseResult :=
  let sp := urlsplit url scheme0 allowFragments
  if uses_params.contains sp.scheme && sp.path.data.contains ';' then
    let (p, par) := splitparams sp.path.data
    ⟨sp.scheme, sp.netloc, String.mk p, String.mk par, sp.query, sp.fragment⟩
  else ⟨sp.scheme, sp.netloc, sp.path, "", sp.query, sp.fragment⟩

/-- `urllib.parse.urlunparse`. -/
def urlunparse (p : ParseResult) : String :=
  let url := if p.params ≠ "" then p.path ++ ";" ++ p.params else p.path
  urlunsplit ⟨p.scheme, p.netloc, url, p.query, p.fragment⟩

/-- Keep the first and last elements, dropping empty strings in between
(Python `segments[1:-1] = filter(None, segments[1:-1])`, applied below to
`first :: rest`). -/
def filterMiddle : List String → List String
  | [] => []
  | [a] => [a]
  | a :: rest => if a = "" then filterMiddle rest else a :: filterMiddle rest

/-- The `..`/`.` resolution loop of `urljoin` (`pop` on an empty stack is
ignored). -/
def resolveSegs (acc : List String) : List String → List String
  | [] => acc
  | s :: rest =>
    if s = ".." then resolveSegs acc.dropLast rest
    else if s = "." then resolveSegs acc rest
    else resolveSegs (acc ++ [s]) rest

/-- `urllib.parse.urljoin(base, url)` (with `allow_fragments=True`). -/
def urljoin (base url : String) : String :=
  if base = "" then url
  else if url = "" then base
  else
    let b := urlparse base "" true
    let u := urlparse url b.scheme true
    if u.scheme ≠ b.scheme || !(uses_relative.contains u.scheme) then url
    else if uses_netloc.contains u.scheme && u.netloc ≠ "" then urlunparse u
    else
      let netloc := if uses_netloc.contains u.scheme then b.netloc else u.netloc
      if u.path = "" && u.params = "" then
        let query := if u.query = "" then b.query else u.query
        urlunparse ⟨u.scheme, netloc, b.path, b.params, query, u.fragment⟩
      else
        let baseParts := strSplitOnChar b.path '/'
        let baseParts :=
          if baseParts.getLast? = some "" then baseParts else baseParts.dropLast
        let segments :=
          if u.path.data.take 1 = ['/'] then strSplitOnChar u.path '/'
          else
            match baseParts ++ strSplitOnChar u.path '/' with
            | [] => []
            | f :: rest => f :: filterMiddle rest
        let resolved := resolveSegs [] segments
        let resolved :=
          if segments.getLast? = some ".." || segments.getLast? = some "." then
            resolved ++ [""]
          else resolved
        let joined := String.intercalate "/" resolved
        urlunparse ⟨u.scheme, netloc, if joined = "" then "/" else joined,
          u.params, u.query, u.fragment⟩

/-- `urllib.parse.urldefrag(url)`. -/
def urldefrag (url : String) : String × String :=
  if url.data.contains '#' then
    let p := urlparse url "" true
    (urlunparse ⟨p.scheme, p.netloc, p.path, p.params, p.query, ""⟩, p.fragment)
  else (url, "")

/-! ## JSON values and Python exceptions -/

/-- The generic JSON value tree the resolver operates on.  Python `dict`s
are insertion-ordered association lists (keys unique in any dict produced
by a JSON parser; lookups take the first match).  Numeric leaves are
irrelevant to the resolver's control flow and are modeled as integers. -/
inductive Value where
  | null
  | bool (b : Bool)
  | num (n : Int)
  | str (s : String)
  | arr (items : List Value)
  | obj (fields : List (String × Value))

/-- Python exceptions that the embedded code can raise.
`jsonSchemaDefinitionException` models the repository's own
`JsonSchemaDefinitionException` (imported from its `exceptions` module,
which only defines the exception class); the others are builtins. -/
inductive PyErr where
  | jsonSchemaDefinitionException (msg : String)
  | valueError (msg : String)
  | indexError (msg : String)
  | typeError (msg : String)
  | attributeError (msg : String)
  | ioError (msg : String)
deriving DecidableEq

/-- First-match lookup in a dict's fields (`schema[key]` / `key in schema`). -/
def lookupField (fields : List (String × Value)) (k : String) : Option Value :=
  (fields.find? (fun p => p.1 == k)).map (·.2)

/-- `key in schema` for a dict. -/
def hasKey (fields : List (String × Value)) (k : String) : Bool :=
  (lookupField fields k).isSome

/-- Assignment `d[k] = v` to an existing key `k`: the entry keeps its
position.  (Call sites below only use this when `k` is present.) -/
def setField (fields : List (String × Value)) (k : String) (v : Value) :
    List (String × Value) :=
  fields.map (fun p => if p.1 == k then (p.1, v) else p)

/-- The store: a mapping from normalized URI to schema, insertion ordered. -/
abbrev Store := List (String × Value)

def storeLookup (st : Store) (k : String) : Option Value :=
  (List.find? (fun p => p.1 == k) st).map (·.2)

def storeMem (st : Store) (k : String) : Bool := (storeLookup st k).isSome

/-- `store[k] = v`: overwrite in place if present, else append. -/
def storeInsert (st : Store) (k : String) (v : Value) : Store :=
  if storeMem st k then
    List.map (fun p => if p.1 == k then (p.1, v) else p) st
  else st ++ [(k, v)]

/-! ## The repository's own URI helpers -/

/-- `get_id(schema)`: `schema.get('$id', schema.get('id', ''))`.
Only ever applied to a dict (callers guard with `isinstance(schema, dict)`
or key-membership tests); on a non-dict it is unspecified and returns `''`
here. -/
def get_id (schema : Value) : Value :=
  match schema with
  | .obj fields =>
    match lookupField fields "$id" with
    | some v => v
    | none =>
      match lookupField fields "id" with
      | some v => v
      | none => .str ""
  | _ => .str ""

/-- `fixed_urljoin(url0, url1)`: `urljoin` that treats every scheme as
hierarchical by substituting `http` for the base's scheme, joining, and
substituting back. -/
def fixed_urljoin (url0 url1 : String) : String :=
  let parts0 := urlsplit url0 "" true
  if parts0.scheme = "http" || parts0.scheme = "https" then urljoin url0 url1
  else
    let parts1 := urlsplit url1 "" true
    if parts1.scheme ≠ "" then url1
    else
      let url0_http := urlunsplit
        ⟨"http", parts0.netloc, parts0.path, parts0.query, parts0.fragment⟩
      let joined_url := urljoin url0_http url1
      let joined_parts := urlsplit joined_url "" true
      urlunsplit ⟨parts0.scheme, joined_parts.netloc, joined_parts.path,
        joined_parts.query, joined_parts.fragment⟩

/-- `normalize(uri)`: `urlsplit(uri).geturl()`. -/
def normalize (uri : String) : String := urlunsplit (urlsplit uri "" true)

/-! ## `resolve_path`: RFC 6901 fragment resolution -/

def isPySpace (c : Char) : Bool :=
  c = ' ' || c = '\t' || c = '\n' || c = '\r' ||
    c = '\x0b' || c = '\x0c'

/-- Digit run with Python's underscore rule: underscores must be
surrounded by digits.  Returns the value in base 10. -/
def pyDigits : List Char → Option Nat
  | [] => none
  | c :: rest =>
    if isAsciiDigit c then pyDigitsAux (c.toNat - 48) rest else none
where
  pyDigitsAux (acc : Nat) : List Char → Option Nat
    | [] => some acc
    | '_' :: c :: rest =>
      if isAsciiDigit c then pyDigitsAux (acc * 10 + (c.toNat - 48)) rest
      else none
    | '_' :: [] => none
    | c :: rest =>
      if isAsciiDigit c then pyDigitsAux (acc * 10 + (c.toNat - 48)) rest
      else none

/-- Python `int(s)` on a string: optional surrounding whitespace, optional
sign, base-10 digits (underscores allowed between digits).  `none` models
`ValueError`.  (Python also accepts non-ASCII unicode digits and unicode
whitespace; no such input occurs in this development.) -/
def pyIntParse (s : String) : Option Int :=
  let cs := ((s.data.dropWhile isPySpace).reverse.dropWhile isPySpace).reverse
  match cs with
  | '+' :: rest => (pyDigits rest).map (Int.ofNat)
  | '-' :: rest => (pyDigits rest).map (fun n => -(n : Int))
  | rest => (pyDigits rest).map (Int.ofNat)

/-- Strip `pat` off the front of a list, returning the remainder. -/
def stripLead : List Char → List Char → Option (List Char)
  | [], l => some l
  | _ :: _, [] => none
  | a :: as, b :: bs => if a == b then stripLead as bs else none

theorem stripLead_length : ∀ (pat l rem : List Char),
    stripLead pat l = some rem → rem.length + pat.length = l.length := by
  intro pat
  induction pat with
  | nil => intro l rem h; simp [stripLead] at h; simp [h]
  | cons a as ih =>
    intro l rem h
    cases l with
    | nil => simp [stripLead] at h
    | cons b bs =>
      rw [stripLead] at h
      by_cases hab : (a == b) = true
      · rw [if_pos hab] at h
        have := ih bs rem h
        simp; omega
      · rw [if_neg hab] at h; cases h

/-- Python `str.replace`: replace non-overlapping occurrences of `pat`,
scanning left to right (all uses below have a non-empty `pat`).  On a
match the replacement is emitted, the matched character is consumed and
the remaining `pat.length - 1` matched characters are skipped via the
counter. -/
def replaceSub (pat rep : List Char) : Nat → List Char → List Char
  | _, [] => []
  | skip + 1, _ :: rest => replaceSub pat rep skip rest
  | 0, c :: rest =>
    match pat, stripLead pat (c :: rest) with
    | _ :: _, some _ => rep ++ replaceSub pat rep (pat.length - 1) rest
    | _, _ => c :: replaceSub pat rep 0 rest

def strReplace (s pat rep : String) : String :=
  String.mk (replaceSub pat.data rep.data 0 s.data)

/-- Unescape one JSON-pointer token:
`part.replace('~1', '/').replace('~0', '~')`. -/
def unescapeToken (p : String) : String :=
  strReplace (strReplace p "~1" "/") "~0" "~"

/-- One step of the `resolve_path` loop, applied to an already unescaped
token `part`:
* on a list, `schema[int(part)]` (Python indexing: negative indices count
  from the end; a non-numeric token raises `ValueError`, an out-of-range
  index raises `IndexError`);
* otherwise `part in schema`: on a dict a key lookup, raising
  `JsonSchemaDefinitionException` when the key is absent; on a string the
  substring test followed by `schema[part]`, a `TypeError`; on any other
  value `in` itself raises `TypeError`. -/
def indexInto (schema : Value) (part : String) : Except PyErr Value :=
  match schema with
  | .arr xs =>
    match pyIntParse part with
    | none =>
      .error (.valueError
        ("invalid literal for int() with base 10: " ++ part))
    | some i =>
      let j : Int := if i < 0 then i + xs.length else i
      if h : 0 ≤ j ∧ j < (xs.length : Int) then
        .ok (xs.get ⟨j.toNat, by omega⟩)
      else .error (.indexError "list index out of range")
  | .obj fields =>
    match lookupField fields part with
    | some v => .ok v
    | none =>
      .error (.jsonSchemaDefinitionException ("Unresolvable ref: " ++ part))
  | .str s =>
    if subList part.data s.data then
      .error (.typeError "string indices must be integers")
    else
      .error (.jsonSchemaDefinitionException ("Unresolvable ref: " ++ part))
  | _ => .error (.typeError "argument is not iterable")

/-- The `for part in parts` loop of `resolve_path`: each raw token is
unescaped and applied; a raised exception aborts the loop. -/
def applyParts (schema : Value) : List String → Except PyErr Value
  | [] => .ok schema
  | tok :: rest =>
    match indexInto schema (unescapeToken tok) with
    | .ok s2 => applyParts s2 rest
    | .error e => .error e

/-- `resolve_path(schema, fragment)`: strip leading `/`, percent-decode,
split on `/`, and walk the tokens. -/
def resolve_path (schema : Value) (fragment : String) : Except PyErr Value :=
  let fragment2 := String.mk (fragment.data.dropWhile (· = '/'))
  let parts :=
    if fragment2 ≠ "" then strSplitOnChar (unquote fragment2) '/' else []
  applyParts schema parts

/-! ## `resolve_remote` -/

/-- The scheme-to-handler mapping (Python dict of callables; a scheme
mapped to `Python None`, and an absent scheme, both fall back to the
default fetch). -/
abbrev Handlers := String → Option (String → Except PyErr Value)

/-- `resolve_remote(uri, handlers)`.

The `urlopen` default branch (HTTP GET, charset selection, `json.loads`,
with a decode failure re-raised as `JsonSchemaDefinitionException`) does
I/O and is abstracted as the oracle `urlopenJson`, which returns the
decoded document or the raised exception. -/
def resolve_remote (urlopenJson : String → Except PyErr Value)
    (handlers : Handlers) (uri : String) : Except PyErr Value :=
  let scheme := (urlsplit uri "" true).scheme
  match handlers scheme with
  | some handler => handler uri
  | none => urlopenJson uri

/-! ## The resolver state -/

/-- The mutable state of a `RefResolver` object.  `store_is_default`
records whether the object was constructed without an explicit `store`
argument, in which case its store *is* the module-level default dict
(Python evaluates the `store={}` default once; see `RefResolver.init`). -/
structure RefResolver where
  base_uri : String
  resolution_scope : String
  schema : Value
  store : Store
  cache : Bool
  handlers : Handlers
  store_is_default : Bool
  unique_name_registry : List (String × String)
  unique_names_taken : List String

/-! ## `RefResolver.resolving` -/

/-- Lines 155–165 of `resolving`: select the target document for an
already joined, defragmented `uri` (with `nuri` its normalization) and
perform the store write for a fetched document. -/
def selectDocument (urlopenJson : String → Except PyErr Value)
    (r : RefResolver) (uri nuri : String) : Except PyErr (Value × Store) :=
  match storeLookup r.store nuri with
  | some schema => .ok (schema, r.store)
  | none =>
    if uri = "" || uri = r.base_uri then .ok (r.schema, r.store)
    else
      match resolve_remote urlopenJson r.handlers uri with
      | .error e => .error e
      | .ok schema =>
        if r.cache then
          let scheme := (urlsplit nuri "" true).scheme
          if scheme ≠ "internal-no-cache" then
            .ok (schema, storeInsert r.store nuri schema)
          else .ok (schema, r.store)
        else .ok (schema, r.store)

/-- The `resolving(ref)` context manager, with the managed block passed
explicitly: `body` receives the yielded value (the fragment-resolved
subschema) and the resolver state at that point, and returns its outcome
together with the state it leaves behind.  Exceptions — from the fetch,
from `resolve_path`, or from `body` — propagate, and the `finally`
blocks of `resolving` and of the nested `in_scope` restore `base_uri`,
`schema` and `resolution_scope` unconditionally. -/
def resolvingWith {β : Type} (urlopenJson : String → Except PyErr Value)
    (r : RefResolver) (ref : String)
    (body : Value → RefResolver → Except PyErr β × RefResolver) :
    Except PyErr β × RefResolver :=
  let new_uri := fixed_urljoin r.resolution_scope ref
  let (uri, fragment) := urldefrag new_uri
  let normalized_uri := normalize uri
  match selectDocument urlopenJson r uri normalized_uri with
  | .error e => (.error e, r)
  | .ok (schema, store2) =>
    -- old_base_uri, old_schema = self.base_uri, self.schema; swap in targets
    let r1 : RefResolver :=
      { r with store := store2, base_uri := uri, schema := schema }
    -- in_scope(uri): old_scope captured, scope joined
    let old_scope := r1.resolution_scope
    let r2 : RefResolver :=
      { r1 with resolution_scope := fixed_urljoin old_scope uri }
    let (out, r3) :=
      match resolve_path schema fragment with
      | .error e => ((.error e : Except PyErr β), r2)
      | .ok v => body v r2
    -- finally of in_scope, then finally of resolving
    let r4 := { r3 with resolution_scope := old_scope }
    (out, { r4 with base_uri := r.base_uri, schema := r.schema })

/-! ## `RefResolver.get_scope_name` -/

/-- The name sanitization of `get_scope_name`:
`'validate_' + unquote(scope)`, then `'~1'`/`'~0'` to `'_'`, `'"'`
removed, then `re.sub(r'($[^a-zA-Z]|[^a-zA-Z0-9])', '_', name)` — whose
first alternative can only ever match a character the second also matches,
so each individual non-alphanumeric character becomes one `'_'` — then
`.lower()`, then `.rstrip('_')`. -/
def sanitizeScopeName (scope : String) : String :=
  let name := "validate_" ++ unquote scope
  let name := strReplace (strReplace name "~1" "_") "~0" "_"
  let name := strReplace name "\"" ""
  let name := String.mk
    (name.data.map (fun c => if isAsciiAlnum c then c else '_'))
  let name := String.mk (name.data.map asciiLower)
  String.mk ((name.data.reverse.dropWhile (· = '_')).reverse)

/-- Candidate `f'{name}_{idx}'`. -/
def candidateName (name : String) (idx : Nat) : String :=
  name ++ "_" ++ natRepr idx

/-- The `while unique_name in self.unique_names_taken` loop, starting from
candidate index `idx`.  `fuel` bounds the iteration count for
well-foundedness only: among any `taken.length + 1` distinct candidates at
least one is free, so with the fuel used below the fallback is never
reached (`searchFree_spec`). -/
def searchFree (name : String) (taken : List String) :
    Nat → Nat → String
  | 0, idx => candidateName name idx
  | fuel + 1, idx =>
    let c := candidateName name idx
    if taken.contains c then searchFree name taken fuel (idx + 1) else c

/-- The suffixing loop of `get_scope_name`: `unique_name = name`, then
`idx` counts `0, 1, …` while the candidate is taken. -/
def firstFree (name : String) (taken : List String) : String :=
  if taken.contains name then searchFree name taken (taken.length + 1) 0
  else name

/-- `scope in self.unique_name_registry` /
`self.unique_name_registry[scope]`. -/
def lookupName (reg : List (String × String)) (s : String) : Option String :=
  (reg.find? (fun p => p.1 == s)).map (·.2)

/-- `get_scope_name(self)`: return the registered identifier for the
current scope, allocating a fresh collision-free one first if absent. -/
def get_scope_name (r : RefResolver) : String × RefResolver :=
  match lookupName r.unique_name_registry r.resolution_scope with
  | some n => (n, r)
  | none =>
    let name := sanitizeScopeName r.resolution_scope
    let unique_name := firstFree name r.unique_names_taken
    (unique_name,
     { r with
        unique_name_registry :=
          r.unique_name_registry ++ [(r.resolution_scope, unique_name)],
        unique_names_taken := unique_name :: r.unique_names_taken })

/-- A sequence of `get_scope_name` calls, each made with
`resolution_scope` set to the respective scope; returns the
`(scope, returned identifier)` pairs and the final state. -/
def runScopes (r : RefResolver) : List String →
    List (String × String) × RefResolver
  | [] => ([], r)
  | s :: rest =>
    let (n, r2) := get_scope_name { r with resolution_scope := s }
    let (ps, r3) := runScopes r2 rest
    ((s, n) :: ps, r3)

/-! ## `RefResolver.walk` -/

/-- Does this dict take `walk`'s `$ref` branch
(`'$ref' in node and isinstance(node['$ref'], str)`)? -/
def refBranch (fields : List (String × Value)) : Option String :=
  match lookupField fields "$ref" with
  | some (.str ref) => some ref
  | _ => none

/-- Does this dict take `walk`'s `$id` branch
(`('$id' in node or 'id' in node) and isinstance(get_id(node), str)`)? -/
def idBranch (fields : List (String × Value)) : Option String :=
  if hasKey fields "$id" || hasKey fields "id" then
    match get_id (.obj fields) with
    | .str s => some s
    | _ => none
  else none

mutual

/-- `walk(node)` under current scope `scope`, returning the rewritten node
together with the store writes it performs, in program order (a later
write to the same key wins, as in Python).  Python stores a *reference* to
the node it is still mutating, so the value recorded for an `$id` node is
the fully walked subtree.  `walk` recurses only into dict-valued fields;
a non-dict, non-bool argument (possible only for the top-level schema,
where Python would raise) is handled in `RefResolver.walk` below. -/
def walkV (scope : String) : Value → Value × List (String × Value)
  | .obj fields =>
    match refBranch fields with
    | some ref =>
      (.obj (setField fields "$ref" (.str (fixed_urljoin scope ref))), [])
    | none =>
      match idBranch fields with
      | some idStr =>
        let scope2 := fixed_urljoin scope idStr
        let (fields2, writes) := walkFields scope2 fields
        let node2 := Value.obj fields2
        (node2, (normalize scope2, node2) :: writes)
      | none =>
        let (fields2, writes) := walkFields scope fields
        (.obj fields2, writes)
  | v => (v, [])

/-- `for _, item in node.items(): if isinstance(item, dict): self.walk(item)`. -/
def walkFields (scope : String) : List (String × Value) →
    List (String × Value) × List (String × Value)
  | [] => ([], [])
  | (k, v) :: rest =>
    match v with
    | .obj fs =>
      let (v2, w1) := walkV scope (.obj fs)
      let (rest2, w2) := walkFields scope rest
      ((k, v2) :: rest2, w1 ++ w2)
    | _ =>
      let (rest2, w2) := walkFields scope rest
      ((k, v) :: rest2, w2)

end

/-- Apply store writes left to right (`self.store[key] = node`). -/
def applyWrites (st : Store) : List (String × Value) → Store
  | [] => st
  | (k, v) :: ws => applyWrites (storeInsert st k v) ws

/-- `self.walk(schema)` as run by the constructor: rewrites the tree and
updates the store.  A top-level schema that is neither a dict nor a bool
makes Python's `walk` raise (`node.items()` on a non-dict). -/
def RefResolver.walk (scope : String) (st : Store) (node : Value) :
    Except PyErr (Value × Store) :=
  match node with
  | .bool _ => .ok (node, st)
  | .obj _ =>
    let (node2, writes) := walkV scope node
    .ok (node2, applyWrites st writes)
  | _ => .error (.attributeError "object has no attribute items")

/-! ## Construction -/

/-- `RefResolver.__init__(base_uri, schema, store={}, cache=True,
handlers={})`.

Python evaluates the `store={}` default once, at function definition time:
every resolver constructed without an explicit `store` argument aliases
that single module-level dict.  The contents of that shared dict are the
explicit state `defaultStore` here; `storeArg = none` models an omitted
`store` argument.  The returned pair is the constructed resolver and the
default dict's contents after construction. -/
def RefResolver.init (base_uri : String) (schema : Value)
    (storeArg : Option Store) (cache : Bool) (handlers : Handlers)
    (defaultStore : Store) : Except PyErr (RefResolver × Store) :=
  let store0 := match storeArg with
    | some st => st
    | none => defaultStore
  match RefResolver.walk base_uri store0 schema with
  | .error e => .error e
  | .ok (schema2, store1) =>
    .ok ({ base_uri := base_uri
           resolution_scope := base_uri
           schema := schema2
           store := store1
           cache := cache
           handlers := handlers
           store_is_default := storeArg.isNone
           unique_name_registry := []
           unique_names_taken := [] },
         if storeArg.isNone then store1 else defaultStore)

/-- The first constructor argument built by `from_schema`:
`get_id(schema) if isinstance(schema, dict) else ''`. -/
def fromSchemaBase (schema : Value) : Value :=
  match schema with
  | .obj _ => get_id schema
  | _ => .str ""

/-- `RefResolver.from_schema(schema, handlers, **kwargs)`.  A non-string
`$id`/`id` value would make Python crash inside `walk` (joining a
non-string scope); it is modeled as an immediate error. -/
def RefResolver.from_schema (schema : Value) (storeArg : Option Store)
    (cache : Bool) (handlers : Handlers) (defaultStore : Store) :
    Except PyErr (RefResolver × Store) :=
  match fromSchemaBase schema with
  | .str s => RefResolver.init s schema storeArg cache handlers defaultStore
  | _ => .error (.attributeError "base_uri is not a str")

/-- The store a resolver reads and writes: the module-level default dict
when it was constructed without a `store` argument, its own otherwise. -/
def effStore (r : RefResolver) (defaultStore : Store) : Store :=
  if r.store_is_default then defaultStore else r.store

/-- The trivial managed block `with resolver.resolving(ref) as s: pass`:
it receives the yielded subschema and leaves the state untouched. -/
def passBody : Value → RefResolver → Except PyErr Value × RefResolver :=
  fun v r => (.ok v, r)

/-- A `resolving(ref)` call executed against the module-level default
dict whose current contents are `g`.  A resolver constructed without a
`store` argument holds a reference to that dict — `self.store` *is* the
dict — so the call reads the dict's current contents and the store state
it leaves behind becomes the dict's new contents; a resolver constructed
with its own store leaves the default dict untouched.  Returns the
block's outcome, the resolver state after the call, and the default
dict's contents after the call. -/
def resolvingShared {β : Type} (urlopenJson : String → Except PyErr Value)
    (g : Store) (r : RefResolver) (ref : String)
    (body : Value → RefResolver → Except PyErr β × RefResolver) :
    Except PyErr β × RefResolver × Store :=
  let rEff := if r.store_is_default then { r with store := g } else r
  let res := resolvingWith urlopenJson rEff ref body
  (res.1, res.2, if r.store_is_default then res.2.store else g)

/-! ## Specification-side definitions

The following definitions restate behavior in the words of the
specification/claims (not of the code); the theorems below compare them
with the translated source. -/

/-- Claim C1's description of document selection: stored schema if the
normalized URI is a store key; the root schema if the base URI is empty
or equals the resolver's `base_uri`; otherwise the fetched document,
written back to the store exactly when the cache flag is set and the
scheme is not the reserved `internal-no-cache` scheme. -/
def selectDocumentSpec (urlopenJson : String → Except PyErr Value)
    (r : RefResolver) (uri nuri : String) : Except PyErr (Value × Store) :=
  match storeLookup r.store nuri with
  | some schema => .ok (schema, r.store)
  | none =>
    if uri = "" || uri = r.base_uri then .ok (r.schema, r.store)
    else
      (resolve_remote urlopenJson r.handlers uri).map (fun schema =>
        (schema,
         if r.cache && (urlsplit nuri "" true).scheme ≠ "internal-no-cache"
         then storeInsert r.store nuri schema
         else r.store))

/-- Claim C6's description of fragment resolution: strip the leading
slashes, percent-decode, split on `/`, unescape every token (`~1` before
`~0`), then apply the tokens left to right. -/
def foldTokens (schema : Value) : List String → Except PyErr Value
  | [] => .ok schema
  | part :: rest =>
    match indexInto schema part with
    | .ok s2 => foldTokens s2 rest
    | .error e => .error e

def resolvePathSpec (schema : Value) (fragment : String) :
    Except PyErr Value :=
  let stripped := String.mk (fragment.data.dropWhile (· = '/'))
  let toks :=
    if stripped = "" then []
    else (strSplitOnChar (unquote stripped) '/').map unescapeToken
  foldTokens schema toks

mutual

/-- The `(scope at node, $ref value)` pairs of the nodes `walk` visits:
the walk stops at a node carrying a string `$ref`, enters the joined
scope at a node declaring a string `$id`/`id`, and descends only into
dict-valued fields. -/
def collectRefs (scope : String) : Value → List (String × String)
  | .obj fields =>
    match refBranch fields with
    | some ref => [(scope, ref)]
    | none =>
      match idBranch fields with
      | some idStr => collectRefsFields (fixed_urljoin scope idStr) fields
      | none => collectRefsFields scope fields
  | _ => []

def collectRefsFields (scope : String) : List (String × Value) →
    List (String × String)
  | [] => []
  | (_, v) :: rest =>
    match v with
    | .obj fs => collectRefs scope (.obj fs) ++ collectRefsFields scope rest
    | _ => collectRefsFields scope rest

end

mutual

/-- The normalized joined scopes of the `$id`/`id`-declaring nodes `walk`
visits, in visit (preorder, store-write) order. -/
def collectIdScopes (scope : String) : Value → List String
  | .obj fields =>
    match refBranch fields with
    | some _ => []
    | none =>
      match idBranch fields with
      | some idStr =>
        let scope2 := fixed_urljoin scope idStr
        normalize scope2 :: collectIdFields scope2 fields
      | none => collectIdFields scope fields
  | _ => []

def collectIdFields (scope : String) : List (String × Value) → List String
  | [] => []
  | (_, v) :: rest =>
    match v with
    | .obj fs => collectIdScopes scope (.obj fs) ++ collectIdFields scope rest
    | _ => collectIdFields scope rest

end

/-- Claim C5's description of the base identifier: percent-decode the
scope, collapse every run of non-alphanumeric characters to a single
separator, lower-case, trim trailing separators. -/
def collapseRunsAux : Bool → List Char → List Char
  | _, [] => []
  | inRun, c :: rest =>
    if isAsciiAlnum c then asciiLower c :: collapseRunsAux false rest
    else if inRun then collapseRunsAux true rest
    else '_' :: collapseRunsAux true rest

def collapseRuns (cs : List Char) : List Char := collapseRunsAux false cs

def collapseRunsBase (scope : String) : String :=
  String.mk
    (((collapseRuns (unquote scope).data).reverse.dropWhile (· = '_')).reverse)

/-! ## Lemmas: the unique-name allocator -/

theorem digitCh_inj : ∀ x < 10, ∀ y < 10, digitCh x = digitCh y →
    x = y := by decide

theorem map_digitCh_inj : ∀ (l1 l2 : List Nat), (∀ d ∈ l1, d < 10) →
    (∀ d ∈ l2, d < 10) → l1.map digitCh = l2.map digitCh → l1 = l2 := by
  intro l1
  induction l1 with
  | nil => intro l2 _ _ h; cases l2 <;> simp_all
  | cons d l ih =>
    intro l2 h1 h2 h
    cases l2 with
    | nil => simp_all
    | cons e l2t =>
      simp only [List.map_cons, List.cons.injEq] at h
      have hd : d = e := digitCh_inj d (h1 d (by simp)) e (h2 e (by simp)) h.1
      have ht : l = l2t := ih l2t (fun x hx => h1 x (by simp [hx]))
        (fun x hx => h2 x (by simp [hx])) h.2
      rw [hd, ht]

theorem natRepr_inj : ∀ m n, natRepr m = natRepr n → m = n := by
  intro m n h
  have hdata := congrArg String.data h
  by_cases hm : m = 0 <;> by_cases hn : n = 0
  · omega
  · exfalso
    simp only [natRepr, hm, hn, if_true, if_false, if_neg hn] at hdata
    have hrev : (Nat.digits 10 n).map digitCh = ['0'] := by
      have := congrArg List.reverse hdata
      simpa using this.symm
    obtain ⟨d, ds, hds⟩ :=
      List.exists_cons_of_ne_nil (Nat.digits_ne_nil_iff_ne_zero.mpr hn)
    rw [hds] at hrev
    simp only [List.map_cons, List.cons.injEq] at hrev
    have hd10 : d < 10 := Nat.digits_lt_base (by norm_num)
      (by rw [hds]; exact List.mem_cons_self d ds)
    have hd0 : d = 0 := digitCh_inj d hd10 0 (by norm_num) hrev.1
    have hds0 : ds = [] := by
      have := hrev.2; cases ds <;> simp_all
    have := Nat.ofDigits_digits 10 n
    rw [hds, hd0, hds0] at this
    simp [Nat.ofDigits] at this
    exact hn this.symm
  · exfalso
    simp only [natRepr, hm, hn, if_true, if_neg hm] at hdata
    have hrev : (Nat.digits 10 m).map digitCh = ['0'] := by
      have := congrArg List.reverse hdata
      simpa using this
    obtain ⟨d, ds, hds⟩ :=
      List.exists_cons_of_ne_nil (Nat.digits_ne_nil_iff_ne_zero.mpr hm)
    rw [hds] at hrev
    simp only [List.map_cons, List.cons.injEq] at hrev
    have hd10 : d < 10 := Nat.digits_lt_base (by norm_num)
      (by rw [hds]; exact List.mem_cons_self d ds)
    have hd0 : d = 0 := digitCh_inj d hd10 0 (by norm_num) hrev.1
    have hds0 : ds = [] := by
      have := hrev.2; cases ds <;> simp_all
    have := Nat.ofDigits_digits 10 m
    rw [hds, hd0, hds0] at this
    simp [Nat.ofDigits] at this
    exact hm this.symm
  · simp only [natRepr, if_neg hm, if_neg hn] at hdata
    have hmap : (Nat.digits 10 m).map digitCh = (Nat.digits 10 n).map digitCh := by
      have := congrArg List.reverse hdata
      simpa using this
    have hdig : Nat.digits 10 m = Nat.digits 10 n :=
      map_digitCh_inj _ _ (fun d hd => Nat.digits_lt_base (by norm_num) hd)
        (fun d hd => Nat.digits_lt_base (by norm_num) hd) hmap
    calc m = Nat.ofDigits 10 (Nat.digits 10 m) := (Nat.ofDigits_digits 10 m).symm
      _ = Nat.ofDigits 10 (Nat.digits 10 n) := by rw [hdig]
      _ = n := Nat.ofDigits_digits 10 n

theorem candidateName_inj (name : String) : ∀ j k,
    candidateName name j = candidateName name k → j = k := by
  intro j k h
  apply natRepr_inj
  have hdata := congrArg String.data h
  simp only [candidateName, String.data_append] at hdata
  exact String.ext (List.append_cancel_left hdata)

theorem exists_free_candidate (name : String) (taken : List String) :
    ∃ k, k ≤ taken.length ∧ ¬ (candidateName name k) ∈ taken := by
  by_contra hall
  push_neg at hall
  have hsub : ∀ x ∈ (List.range (taken.length + 1)).map (candidateName name),
      x ∈ taken := by
    intro x hx
    obtain ⟨k, hk, rfl⟩ := List.mem_map.mp hx
    exact hall k (Nat.le_of_lt_succ (List.mem_range.mp hk))
  have hnodup : ((List.range (taken.length + 1)).map
      (candidateName name)).Nodup :=
    (List.nodup_range _).map (fun j k => candidateName_inj name j k)
  have hcard1 : ((List.range (taken.length + 1)).map
      (candidateName name)).toFinset.card = taken.length + 1 := by
    rw [List.toFinset_card_of_nodup hnodup]; simp
  have hsubF : ((List.range (taken.length + 1)).map
      (candidateName name)).toFinset ⊆ taken.toFinset := by
    intro x hx
    exact List.mem_toFinset.mpr (hsub x (List.mem_toFinset.mp hx))
  have h1 := Finset.card_le_card hsubF
  have h2 := List.toFinset_card_le taken
  omega

/-- The suffix-search loop returns the first free candidate at or after
`idx`, provided one exists within `fuel` steps. -/
theorem searchFree_spec (name : String) (taken : List String) :
    ∀ fuel idx,
      (∃ m, idx ≤ m ∧ m < idx + fuel ∧ ¬ (candidateName name m) ∈ taken) →
      ∃ k, idx ≤ k ∧ searchFree name taken fuel idx = candidateName name k ∧
        ¬ (candidateName name k) ∈ taken ∧
        ∀ j, idx ≤ j → j < k → (candidateName name j) ∈ taken := by
  intro fuel
  induction fuel with
  | zero => intro idx ⟨m, h1, h2, _⟩; omega
  | succ fuel ih =>
    intro idx hex
    by_cases hc : (candidateName name idx) ∈ taken
    · obtain ⟨m, hm1, hm2, hm3⟩ := hex
      have hmne : m ≠ idx := fun he => hm3 (he ▸ hc)
      obtain ⟨k, hk1, hk2, hk3, hk4⟩ :=
        ih (idx + 1) ⟨m, by omega, by omega, hm3⟩
      refine ⟨k, by omega, ?_, hk3, ?_⟩
      · rw [searchFree, if_pos (List.elem_iff.mpr hc)]
        exact hk2
      · intro j hj1 hj2
        rcases Nat.eq_or_lt_of_le hj1 with he | hlt
        · exact he ▸ hc
        · exact hk4 j hlt hj2
    · refine ⟨idx, le_refl idx, ?_, hc, by omega⟩
      rw [searchFree, if_neg (fun hmem => hc (List.elem_iff.mp hmem))]

/-- The allocated name is never already taken. -/
theorem firstFree_not_taken (name : String) (taken : List String) :
    ¬ (firstFree name taken) ∈ taken := by
  rw [firstFree]
  by_cases hc : name ∈ taken
  · rw [if_pos (List.elem_iff.mpr hc)]
    obtain ⟨m, hm1, hm2⟩ := exists_free_candidate name taken
    obtain ⟨k, _, heq, hfree, _⟩ :=
      searchFree_spec name taken (taken.length + 1) 0 ⟨m, by omega, by omega, hm2⟩
    rw [heq]; exact hfree
  · rw [if_neg (fun hmem => hc (List.elem_iff.mp hmem))]
    exact hc

/-- The allocated name is the base name when free, else the base name
with the smallest free numeric suffix. -/
theorem firstFree_cases (name : String) (taken : List String) :
    (¬ name ∈ taken ∧ firstFree name taken = name) ∨
    (name ∈ taken ∧ ∃ k, firstFree name taken = candidateName name k ∧
      ∀ j < k, (candidateName name j) ∈ taken) := by
  rw [firstFree]
  by_cases hc : name ∈ taken
  · right
    rw [if_pos (List.elem_iff.mpr hc)]
    obtain ⟨m, hm1, hm2⟩ := exists_free_candidate name taken
    obtain ⟨k, _, heq, _, hmin⟩ :=
      searchFree_spec name taken (taken.length + 1) 0 ⟨m, by omega, by omega, hm2⟩
    exact ⟨hc, k, heq, fun j hj => hmin j (Nat.zero_le j) hj⟩
  · left
    rw [if_neg (fun hmem => hc (List.elem_iff.mp hmem))]
    exact ⟨hc, rfl⟩

/-! ## Lemmas: `get_scope_name` bookkeeping -/

/-- The registry/taken-set invariant maintained by `get_scope_name` and
established by the constructor (which starts both empty): every
registered identifier is in the taken set, and no two scopes share an
identifier. -/
def WFNames (r : RefResolver) : Prop :=
  (∀ p ∈ r.unique_name_registry, p.2 ∈ r.unique_names_taken) ∧
  (∀ p ∈ r.unique_name_registry, ∀ q ∈ r.unique_name_registry,
    p.2 = q.2 → p.1 = q.1)

theorem lookupName_mem {reg : List (String × String)} {s n : String}
    (h : lookupName reg s = some n) : (s, n) ∈ reg := by
  rw [lookupName] at h
  obtain ⟨p, hfind, hp2⟩ := Option.map_eq_some'.mp h
  have hmem := List.mem_of_find?_eq_some hfind
  have hkey : p.1 = s := by
    have := List.find?_some hfind
    simpa using this
  have : p = (s, n) := by
    cases p; simp_all
  exact this ▸ hmem

theorem lookupName_append (l1 l2 : List (String × String)) (s : String) :
    lookupName (l1 ++ l2) s = (lookupName l1 s).or (lookupName l2 s) := by
  simp only [lookupName, List.find?_append]
  cases l1.find? (fun p => p.1 == s) <;> simp

/-- A fresh allocation: the scope is appended to the registry with a
name not previously taken. -/
theorem gsn_fresh {r : RefResolver}
    (h : lookupName r.unique_name_registry r.resolution_scope = none) :
    get_scope_name r =
      (firstFree (sanitizeScopeName r.resolution_scope) r.unique_names_taken,
       { r with
          unique_name_registry := r.unique_name_registry ++
            [(r.resolution_scope,
              firstFree (sanitizeScopeName r.resolution_scope)
                r.unique_names_taken)],
          unique_names_taken :=
            firstFree (sanitizeScopeName r.resolution_scope)
              r.unique_names_taken :: r.unique_names_taken }) := by
  rw [get_scope_name, h]

/-- A repeated request: the registered name is returned, state unchanged. -/
theorem gsn_hit {r : RefResolver} {n : String}
    (h : lookupName r.unique_name_registry r.resolution_scope = some n) :
    get_scope_name r = (n, r) := by
  rw [get_scope_name, h]

theorem gsn_preserves_WF (r : RefResolver) (h : WFNames r) :
    WFNames (get_scope_name r).2 := by
  cases hl : lookupName r.unique_name_registry r.resolution_scope with
  | some n => rw [gsn_hit hl]; exact h
  | none =>
    rw [gsn_fresh hl]
    constructor
    · intro p hp
      simp only [List.mem_append, List.mem_singleton] at hp
      rcases hp with hp | hp
      · exact List.mem_cons_of_mem _ (h.1 p hp)
      · rw [hp]; exact List.mem_cons_self _ _
    · intro p hp q hq heq
      simp only [List.mem_append, List.mem_singleton] at hp hq
      have hff := firstFree_not_taken
        (sanitizeScopeName r.resolution_scope) r.unique_names_taken
      rcases hp with hp | hp <;> rcases hq with hq | hq
      · exact h.2 p hp q hq heq
      · exfalso; rw [hq] at heq; simp only [] at heq
        exact hff (heq ▸ h.1 p hp)
      · exfalso; rw [hp] at heq; simp only [] at heq
        exact hff (by rw [heq]; exact h.1 q hq)
      · rw [hp, hq]

theorem gsn_mono {r : RefResolver} {s n : String}
    (h : lookupName r.unique_name_registry s = some n) :
    lookupName ((get_scope_name r).2).unique_name_registry s = some n := by
  cases hl : lookupName r.unique_name_registry r.resolution_scope with
  | some m => rw [gsn_hit hl]; exact h
  | none => rw [gsn_fresh hl]; rw [lookupName_append, h]; rfl

/-- Immediately after a call, the identifier returned for the current
scope is registered for it. -/
theorem gsn_self (r : RefResolver) :
    lookupName ((get_scope_name r).2).unique_name_registry
      r.resolution_scope = some (get_scope_name r).1 := by
  cases hl : lookupName r.unique_name_registry r.resolution_scope with
  | some n => rw [gsn_hit hl]; exact hl
  | none =>
    rw [gsn_fresh hl, lookupName_append, hl]
    simp [lookupName]

/-! ## Lemmas: sequences of `get_scope_name` calls -/

theorem runScopes_WF (scopes : List String) : ∀ (r : RefResolver),
    WFNames r → WFNames (runScopes r scopes).2 := by
  induction scopes with
  | nil => intro r h; exact h
  | cons s rest ih =>
    intro r h
    rw [runScopes]
    have h1 : WFNames ({ r with resolution_scope := s } : RefResolver) :=
      ⟨h.1, h.2⟩
    have h2 := gsn_preserves_WF _ h1
    exact ih _ h2

theorem runScopes_mono (scopes : List String) : ∀ (r : RefResolver)
    (s n : String), lookupName r.unique_name_registry s = some n →
    lookupName ((runScopes r scopes).2).unique_name_registry s = some n := by
  induction scopes with
  | nil => intro r s n h; exact h
  | cons sc rest ih =>
    intro r s n h
    rw [runScopes]
    exact ih _ s n (gsn_mono (r := { r with resolution_scope := sc }) h)

/-- Every `(scope, identifier)` pair a call sequence produces is in the
final registry. -/
theorem runScopes_mem (scopes : List String) : ∀ (r : RefResolver)
    (s n : String), (s, n) ∈ (runScopes r scopes).1 →
    lookupName ((runScopes r scopes).2).unique_name_registry s = some n := by
  induction scopes with
  | nil => intro r s n h; simp [runScopes] at h
  | cons sc rest ih =>
    intro r s n h
    have hrun : runScopes r (sc :: rest) =
        ((sc, (get_scope_name { r with resolution_scope := sc }).1) ::
           (runScopes (get_scope_name
             { r with resolution_scope := sc }).2 rest).1,
         (runScopes (get_scope_name
           { r with resolution_scope := sc }).2 rest).2) := rfl
    rw [hrun] at h ⊢
    rcases List.mem_cons.mp h with he | hm
    · obtain ⟨h1, h2⟩ : s = sc ∧ n =
          (get_scope_name { r with resolution_scope := sc }).1 := by
        simpa using he
      subst h1; subst h2
      have := gsn_self ({ r with resolution_scope := s } : RefResolver)
      exact runScopes_mono rest _ _ _ this
    · exact ih _ s n hm

/-! ## Concrete instances used by witnesses and counterexamples -/

/-- A resolver state with the given current scope and taken-name set
(registry empty, as after construction). -/
def nameResolverAt (scope : String) (taken : List String) : RefResolver :=
  { base_uri := ""
    resolution_scope := scope
    schema := .bool true
    store := []
    cache := true
    handlers := fun _ => none
    store_is_default := false
    unique_name_registry := []
    unique_names_taken := taken }

/-! ## Claim theorems -/

/-- C4: for a single `RefResolver` instance and every sequence of
`get_scope_name` calls (each made under its respective
`resolution_scope`), two calls return the same identifier exactly when
they were made under the same scope: the scope-to-name mapping is
append-only, so the same scope always yields the identical identifier,
and two distinct scopes always receive distinct identifiers, even when
their sanitized base names coincide.  `WFNames` is the registry/taken-set
invariant that holds for a freshly constructed resolver (both empty) and
is preserved by every call. -/
theorem scope_name_identifiers_unique (r : RefResolver) (h : WFNames r)
    (scopes : List String) (s1 n1 s2 n2 : String)
    (h1 : (s1, n1) ∈ (runScopes r scopes).1)
    (h2 : (s2, n2) ∈ (runScopes r scopes).1) :
    n1 = n2 ↔ s1 = s2 := by
  have L1 := runScopes_mem scopes r s1 n1 h1
  have L2 := runScopes_mem scopes r s2 n2 h2
  have WFf := runScopes_WF scopes r h
  constructor
  · intro he
    have M1 := lookupName_mem L1
    have M2 := lookupName_mem L2
    exact WFf.2 (s1, n1) M1 (s2, n2) M2 he
  · intro he
    subst he
    have := L1.symm.trans L2
    exact Option.some.injEq .. ▸ (by simpa using this)

/-- Witness for C4: the scopes `"a//b"` and `"a b"` receive distinct
identifiers, and the repeated scope receives the identical identifier. -/
theorem scope_name_identifiers_unique_witness :
    (("a//b", "validate_a__b") ∈
        (runScopes (nameResolverAt "" []) ["a//b", "a b", "a//b"]).1) ∧
    (("a b", "validate_a_b") ∈
        (runScopes (nameResolverAt "" []) ["a//b", "a b", "a//b"]).1) ∧
    ("validate_a__b" = "validate_a_b" ↔ ("a//b" : String) = "a b") ∧
    ("validate_a__b" = "validate_a__b" ↔ ("a//b" : String) = "a//b") := by
  have hWF : WFNames (nameResolverAt "" []) := by
    constructor <;> intro p hp <;> simp [nameResolverAt] at hp
  have h1 : (("a//b", "validate_a__b")) ∈
      (runScopes (nameResolverAt "" []) ["a//b", "a b", "a//b"]).1 := by decide
  have h2 : (("a b", "validate_a_b")) ∈
      (runScopes (nameResolverAt "" []) ["a//b", "a b", "a//b"]).1 := by decide
  have h3 : (("a//b", "validate_a__b")) ∈
      (runScopes (nameResolverAt "" []) ["a//b", "a b", "a//b"]).1 := by decide
  exact ⟨h1, h2,
    scope_name_identifiers_unique (nameResolverAt "" []) hWF
      ["a//b", "a b", "a//b"] "a//b" "validate_a__b" "a b" "validate_a_b"
      h1 h2,
    scope_name_identifiers_unique (nameResolverAt "" []) hWF
      ["a//b", "a b", "a//b"] "a//b" "validate_a__b" "a//b" "validate_a__b"
      h1 h3⟩

/-- C5 (counterexample): the claim says runs of illegal characters
collapse to a *single* separator.  The code replaces each illegal
character individually: for the scope `"a//b"` the allocated identifier
is `"validate_a__b"` (two underscores), while the claim's sanitization
(`collapseRunsBase`) yields `"a_b"` — the identifier matches neither it
nor its `"validate_"`-prefixed form. -/
theorem scope_name_not_run_collapsed :
    (get_scope_name (nameResolverAt "a//b" [])).1 = "validate_a__b" ∧
    collapseRunsBase "a//b" = "a_b" ∧
    (get_scope_name (nameResolverAt "a//b" [])).1 ≠ collapseRunsBase "a//b" ∧
    (get_scope_name (nameResolverAt "a//b" [])).1 ≠
      "validate_" ++ collapseRunsBase "a//b" := by
  refine ⟨by decide, by decide, by decide, by decide⟩

/-- C5 (amended): on a scope not yet registered, `get_scope_name`
allocates `sanitizeScopeName scope` — `'validate_' + unquote(scope)` with
`'~1'`/`'~0'` replaced by `'_'`, `'"'` removed, each remaining character
outside `[a-zA-Z0-9]` replaced *individually* by `'_'`, lower-cased and
with trailing `'_'` stripped — if that name is free, and otherwise the
first free candidate among `name_0`, `name_1`, … in increasing order;
the allocated identifier is never one already taken. -/
theorem scope_name_fresh_allocation (r : RefResolver)
    (h : lookupName r.unique_name_registry r.resolution_scope = none) :
    ¬ (get_scope_name r).1 ∈ r.unique_names_taken ∧
    ((¬ sanitizeScopeName r.resolution_scope ∈ r.unique_names_taken ∧
        (get_scope_name r).1 = sanitizeScopeName r.resolution_scope) ∨
      (sanitizeScopeName r.resolution_scope ∈ r.unique_names_taken ∧
        ∃ k, (get_scope_name r).1 =
            candidateName (sanitizeScopeName r.resolution_scope) k ∧
          ∀ j < k, candidateName (sanitizeScopeName r.resolution_scope) j ∈
            r.unique_names_taken)) := by
  rw [gsn_fresh h]
  exact ⟨firstFree_not_taken _ _, firstFree_cases _ _⟩

/-- Witness for C5 (amended): with `"validate_a__b"` already taken, the
scope `"a//b"` receives the suffixed identifier `"validate_a__b_0"`. -/
theorem scope_name_fresh_allocation_witness :
    (get_scope_name (nameResolverAt "a//b" ["validate_a__b"])).1 =
      "validate_a__b_0" ∧
    (¬ (get_scope_name (nameResolverAt "a//b" ["validate_a__b"])).1 ∈
        (nameResolverAt "a//b" ["validate_a__b"]).unique_names_taken ∧
      ((¬ sanitizeScopeName
            (nameResolverAt "a//b" ["validate_a__b"]).resolution_scope ∈
            (nameResolverAt "a//b" ["validate_a__b"]).unique_names_taken ∧
          (get_scope_name (nameResolverAt "a//b" ["validate_a__b"])).1 =
            sanitizeScopeName
              (nameResolverAt "a//b" ["validate_a__b"]).resolution_scope) ∨
        (sanitizeScopeName
            (nameResolverAt "a//b" ["validate_a__b"]).resolution_scope ∈
            (nameResolverAt "a//b" ["validate_a__b"]).unique_names_taken ∧
          ∃ k, (get_scope_name (nameResolverAt "a//b" ["validate_a__b"])).1 =
              candidateName (sanitizeScopeName
                (nameResolverAt "a//b" ["validate_a__b"]).resolution_scope) k ∧
            ∀ j < k, candidateName (sanitizeScopeName
                (nameResolverAt "a//b" ["validate_a__b"]).resolution_scope) j ∈
              (nameResolverAt "a//b" ["validate_a__b"]).unique_names_taken))) :=
  ⟨by decide,
   scope_name_fresh_allocation (nameResolverAt "a//b" ["validate_a__b"]) rfl⟩

/-- The per-iteration unescaping of `resolve_path` commutes with
unescaping all tokens up front. -/
theorem applyParts_eq_foldTokens : ∀ (toks : List String) (s : Value),
    applyParts s toks = foldTokens s (toks.map unescapeToken) := by
  intro toks
  induction toks with
  | nil => intro s; rfl
  | cons t rest ih =>
    intro s
    simp only [List.map_cons, applyParts, foldTokens]
    cases indexInto s (unescapeToken t) with
    | ok s2 => exact ih s2
    | error e => rfl

/-- C6: `resolve_path` interprets the fragment as an RFC 6901 JSON
pointer exactly as the specification describes: leading `/` stripped,
percent-decoded, split on `/`, each token unescaped (`~1` → `/` before
`~0` → `~`) and applied left to right — an integer index into a
sequence, a key lookup into a map — with the empty fragment returning
the schema itself (`resolvePathSpec` is that description verbatim). -/
theorem resolve_path_rfc6901 (schema : Value) (fragment : String) :
    resolve_path schema fragment = resolvePathSpec schema fragment := by
  rw [resolve_path, resolvePathSpec]
  by_cases h : String.mk (fragment.data.dropWhile (· = '/')) = ""
  · simp only [h, if_neg (by simp : ¬ ("" : String) ≠ ""), applyParts,
      foldTokens]
  · simp only [if_pos h, if_neg h]
    exact applyParts_eq_foldTokens _ _

/-- Is this outcome the repository's definition error
(`JsonSchemaDefinitionException`)? -/
def isDefinitionError : Except PyErr Value → Bool
  | .error (.jsonSchemaDefinitionException _) => true
  | _ => false

/-- C7 (counterexample): the claim says a non-numeric token or
out-of-range index on a sequence fails with a definition error.  The
code raises bare `ValueError`/`IndexError` there (only the absent-key
case raises `JsonSchemaDefinitionException`). -/
theorem resolve_path_index_errors_not_definition_errors :
    isDefinitionError (resolve_path (.arr [.num 1]) "/x") = false ∧
    resolve_path (.arr [.num 1]) "/x" =
      .error (.valueError "invalid literal for int() with base 10: x") ∧
    isDefinitionError (resolve_path (.arr [.num 1]) "/5") = false ∧
    resolve_path (.arr [.num 1]) "/5" =
      .error (.indexError "list index out of range") ∧
    isDefinitionError (resolve_path (.obj []) "/x") = true := by
  exact ⟨rfl, rfl, rfl, rfl, rfl⟩

/-- C7 (amended): `resolve_path` never silently returns a default — a
key absent from a map fails with the definition error
`JsonSchemaDefinitionException`, while a non-numeric token on a sequence
fails with `ValueError` and an out-of-range index (after Python's
negative-index adjustment) with `IndexError`; a step error aborts the
token loop with that error, and a successful step returns an actual
member of the map or sequence. -/
theorem resolve_path_error_kinds (x : Value) (tok : String) :
    (∀ fields, x = .obj fields →
      lookupField fields (unescapeToken tok) = none →
      indexInto x (unescapeToken tok) =
        .error (.jsonSchemaDefinitionException
          ("Unresolvable ref: " ++ unescapeToken tok))) ∧
    (∀ xs, x = .arr xs → pyIntParse (unescapeToken tok) = none →
      indexInto x (unescapeToken tok) =
        .error (.valueError
          ("invalid literal for int() with base 10: " ++ unescapeToken tok))) ∧
    (∀ xs (i : Int), x = .arr xs → pyIntParse (unescapeToken tok) = some i →
      ¬ (0 ≤ (if i < 0 then i + xs.length else i) ∧
          (if i < 0 then i + xs.length else i) < (xs.length : Int)) →
      indexInto x (unescapeToken tok) =
        .error (.indexError "list index out of range")) ∧
    (∀ e rest, indexInto x (unescapeToken tok) = .error e →
      applyParts x (tok :: rest) = .error e) ∧
    (∀ v, indexInto x (unescapeToken tok) = .ok v →
      (∃ fields, x = .obj fields ∧
        lookupField fields (unescapeToken tok) = some v) ∨
      (∃ xs j, x = .arr xs ∧ xs.get? j = some v)) := by
  refine ⟨?_, ?_, ?_, ?_, ?_⟩
  · intro fields hx hlook
    subst hx
    simp only [indexInto, hlook]
  · intro xs hx hparse
    subst hx
    simp only [indexInto, hparse]
  · intro xs i hx hparse hrange
    subst hx
    simp only [indexInto, hparse]
    rw [dif_neg hrange]
  · intro e rest herr
    simp only [applyParts, herr]
  · intro v hok
    cases x with
    | obj fields =>
      left
      refine ⟨fields, rfl, ?_⟩
      simp only [indexInto] at hok
      cases hlook : lookupField fields (unescapeToken tok) with
      | some w => rw [hlook] at hok; cases hok; rfl
      | none => rw [hlook] at hok; cases hok
    | arr xs =>
      right
      simp only [indexInto] at hok
      cases hparse : pyIntParse (unescapeToken tok) with
      | none => simp only [hparse] at hok; cases hok
      | some i =>
        simp only [hparse] at hok
        by_cases hr : 0 ≤ (if i < 0 then i + xs.length else i) ∧
            (if i < 0 then i + xs.length else i) < (xs.length : Int)
        · rw [dif_pos hr] at hok
          cases hok
          refine ⟨xs, (if i < 0 then i + (xs.length : Int) else i).toNat, rfl,
            List.get?_eq_get ?_⟩
          omega
        · rw [dif_neg hr] at hok; cases hok
    | null => simp [indexInto] at hok
    | bool b => simp [indexInto] at hok
    | num n => simp [indexInto] at hok
    | str s =>
      simp only [indexInto] at hok
      by_cases hsub : subList (unescapeToken tok).data s.data = true
      · rw [if_pos hsub] at hok; cases hok
      · rw [if_neg hsub] at hok; cases hok

/-- Witness for C7 (amended): the three error kinds and the propagation,
at concrete inputs. -/
theorem resolve_path_error_kinds_witness :
    (indexInto (.obj [("a", .num 1)]) (unescapeToken "b") =
      .error (.jsonSchemaDefinitionException
        ("Unresolvable ref: " ++ unescapeToken "b"))) ∧
    (indexInto (.arr [.num 1]) (unescapeToken "x") =
      .error (.valueError
        ("invalid literal for int() with base 10: " ++ unescapeToken "x"))) ∧
    (indexInto (.arr [.num 1]) (unescapeToken "5") =
      .error (.indexError "list index out of range")) ∧
    (applyParts (.arr [.num 1]) ["x"] =
      .error (.valueError
        ("invalid literal for int() with base 10: " ++ unescapeToken "x"))) := by
  refine ⟨?_, ?_, ?_, ?_⟩
  · exact (resolve_path_error_kinds (.obj [("a", .num 1)]) "b").1 _ rfl rfl
  · exact (resolve_path_error_kinds (.arr [.num 1]) "x").2.1 _ rfl rfl
  · exact (resolve_path_error_kinds (.arr [.num 1]) "5").2.2.1 _ 5 rfl rfl
      (by decide)
  · exact (resolve_path_error_kinds (.arr [.num 1]) "x").2.2.2.1 _ []
      ((resolve_path_error_kinds (.arr [.num 1]) "x").2.1 _ rfl rfl)

/-- C1: document selection in `resolving` — the code's selection and
store-write logic (`selectDocument`, lines 155–165 of `resolving`, which
`resolvingWith` invokes on the URI obtained by joining `ref` against the
current scope, splitting off the fragment and normalizing) equals the
claim's description `selectDocumentSpec`: first the store at the
normalized URI; else the root schema when the base URI is empty or equals
the resolver's `base_uri`; else the document fetched through the
scheme-dispatched handler, written to the store under the normalized URI
exactly when the cache flag is set and the scheme is not
`internal-no-cache`. -/
theorem resolving_selects_documents_in_order
    (urlopenJson : String → Except PyErr Value) (r : RefResolver)
    (uri nuri : String) :
    selectDocument urlopenJson r uri nuri =
      selectDocumentSpec urlopenJson r uri nuri := by
  rw [selectDocument, selectDocumentSpec]
  cases storeLookup r.store nuri with
  | some schema => rfl
  | none =>
    by_cases hroot : uri = "" || uri = r.base_uri
    · rw [if_pos hroot, if_pos hroot]
    · rw [if_neg hroot, if_neg hroot]
      cases resolve_remote urlopenJson r.handlers uri with
      | error e => rfl
      | ok schema =>
        simp only [Except.map]
        by_cases hcache : r.cache
        · rw [if_pos hcache]
          by_cases hscheme : (urlsplit nuri "" true).scheme ≠ "internal-no-cache"
          · rw [if_pos hscheme, if_pos (by simp [hcache, hscheme])]
          · rw [if_neg hscheme, if_neg (by simp [hcache]; simpa using hscheme)]
        · rw [if_neg hcache, if_neg (by simp [hcache])]

/-- C3: on every exit path of the `resolving(ref)` context — normal
completion, an exception from the remote fetch, from fragment
resolution, or from the enclosed block — the resolver's `base_uri`,
`schema` and `resolution_scope` are restored to exactly the values they
held before the call, whatever the block did to them. -/
theorem resolving_restores_scope_state {β : Type}
    (urlopenJson : String → Except PyErr Value) (r : RefResolver)
    (ref : String)
    (body : Value → RefResolver → Except PyErr β × RefResolver) :
    ((resolvingWith urlopenJson r ref body).2).base_uri = r.base_uri ∧
    ((resolvingWith urlopenJson r ref body).2).schema = r.schema ∧
    ((resolvingWith urlopenJson r ref body).2).resolution_scope =
      r.resolution_scope := by
  rw [resolvingWith]
  rcases hdf : urldefrag (fixed_urljoin r.resolution_scope ref) with
    ⟨uri, frag⟩
  dsimp only
  rcases hsel : selectDocument urlopenJson r uri (normalize uri) with
    e | ⟨schema, store2⟩ <;>
  exact ⟨rfl, rfl, rfl⟩

/-- C8 (counterexample): the claim says `fixed_urljoin(base, ref)`
returns `ref` unchanged whenever `ref` carries an explicit scheme — but
for an `http`/`https` base the code delegates to the standard `urljoin`,
which merges a same-scheme relative-path reference against the base:
`"http:c"` carries the scheme `http`, yet joining it against
`"http://a/b"` yields `"http://a/c"`. -/
theorem fixed_urljoin_merges_same_scheme_ref :
    (urlsplit "http:c" "" true).scheme = "http" ∧
    fixed_urljoin "http://a/b" "http:c" = "http://a/c" ∧
    fixed_urljoin "http://a/b" "http:c" ≠ "http:c" := by
  exact ⟨rfl, rfl, by decide⟩

/-- C8 (amended): when the base's scheme is neither `http` nor `https`,
`fixed_urljoin(base, ref)` returns `ref` unchanged whenever `ref`
carries an explicit scheme, and otherwise equals the standard join
computed with the base's scheme replaced by `http`, with the original
scheme substituted back into the result.  (For `http`/`https` bases the
standard join applies directly and may rewrite even a scheme-carrying
`ref`.) -/
theorem fixed_urljoin_custom_scheme (url0 url1 : String)
    (h : ¬ ((urlsplit url0 "" true).scheme = "http" ∨
        (urlsplit url0 "" true).scheme = "https")) :
    ((urlsplit url1 "" true).scheme ≠ "" →
      fixed_urljoin url0 url1 = url1) ∧
    ((urlsplit url1 "" true).scheme = "" →
      fixed_urljoin url0 url1 =
        (let parts0 := urlsplit url0 "" true
         let joined_parts := urlsplit
           (urljoin (urlunsplit ⟨"http", parts0.netloc, parts0.path,
              parts0.query, parts0.fragment⟩) url1) "" true
         urlunsplit ⟨parts0.scheme, joined_parts.netloc, joined_parts.path,
           joined_parts.query, joined_parts.fragment⟩)) := by
  rw [fixed_urljoin]
  rw [if_neg (by simpa using h)]
  constructor
  · intro hs
    rw [if_pos hs]
  · intro hs
    rw [if_neg (by simp [hs])]

/-- Witness for C8 (amended): a custom-scheme base; a scheme-carrying
ref is returned unchanged, and a relative ref goes through the
`http`-substitution join. -/
theorem fixed_urljoin_custom_scheme_witness :
    fixed_urljoin "s://a/b" "t://y" = "t://y" ∧
    fixed_urljoin "s://a/b" "x" =
      (let parts0 := urlsplit "s://a/b" "" true
       let joined_parts := urlsplit
         (urljoin (urlunsplit ⟨"http", parts0.netloc, parts0.path,
            parts0.query, parts0.fragment⟩) "x") "" true
       urlunsplit ⟨parts0.scheme, joined_parts.netloc, joined_parts.path,
         joined_parts.query, joined_parts.fragment⟩) ∧
    fixed_urljoin "s://a/b" "x" = "s://a/x" := by
  refine ⟨?_, ?_, by rfl⟩
  · exact (fixed_urljoin_custom_scheme "s://a/b" "t://y" (by decide)).1
      (by decide)
  · exact (fixed_urljoin_custom_scheme "s://a/b" "x" (by decide)).2 (by decide)

/-! ## Lemmas: store monotonicity -/

theorem storeLookup_isSome (st : Store) (k : String) :
    (storeLookup st k).isSome =
      (List.find? (fun p => p.1 == k) st).isSome := by
  rw [storeLookup]
  cases List.find? (fun p => p.1 == k) st <;> rfl

theorem find?_key_preserving (k : String)
    (f : String × Value → String × Value) (hf : ∀ p, (f p).1 = p.1) :
    ∀ (l : List (String × Value)),
    (List.find? (fun p => p.1 == k) (l.map f)).isSome =
      (List.find? (fun p => p.1 == k) l).isSome := by
  intro l
  induction l with
  | nil => rfl
  | cons p rest ih =>
    rw [List.map_cons]
    cases hh : (p.1 == k)
    · rw [List.find?_cons_of_neg _ (by simpa [hf p] using hh),
        List.find?_cons_of_neg _ (by simpa using hh)]
      exact ih
    · rw [List.find?_cons_of_pos _ (by simpa [hf p] using hh),
        List.find?_cons_of_pos _ (by simpa using hh)]
      rfl

theorem storeLookup_overwrite (kk : String) (v : Value) :
    ∀ (st : Store) (k : String),
    (storeLookup (List.map (fun p => if p.1 == kk then (p.1, v) else p) st)
      k).isSome = (storeLookup st k).isSome := by
  intro st k
  rw [storeLookup_isSome, storeLookup_isSome]
  exact find?_key_preserving k _
    (fun p => by by_cases h : p.1 == kk <;> simp [h]) st

theorem storeInsert_mem_preserved (st : Store) (kk : String) (v : Value)
    (k : String) (h : (storeLookup st k).isSome = true) :
    (storeLookup (storeInsert st kk v) k).isSome = true := by
  rw [storeInsert]
  by_cases hm : storeMem st kk
  · rw [if_pos hm, storeLookup_overwrite]; exact h
  · rw [if_neg hm]
    rw [storeLookup] at h ⊢
    rw [List.find?_append]
    cases hf : List.find? (fun p => p.1 == k) st with
    | some p => simp [Option.or]
    | none => rw [hf] at h; simp at h

theorem applyWrites_mem_preserved :
    ∀ (ws : List (String × Value)) (st : Store) (k : String),
    (storeLookup st k).isSome = true →
    (storeLookup (applyWrites st ws) k).isSome = true := by
  intro ws
  induction ws with
  | nil => intro st k h; exact h
  | cons w rest ih =>
    intro st k h
    rw [applyWrites]
    exact ih _ k (storeInsert_mem_preserved st w.1 w.2 k h)

theorem storeLookup_cons (a : String) (b : Value) (rest : Store)
    (k : String) :
    storeLookup ((a, b) :: rest) k =
      if a == k then some b else storeLookup rest k := by
  cases h : (a == k) <;> simp [storeLookup, List.find?, h]

theorem storeLookup_overwrite_self (kk : String) (v : Value) :
    ∀ (st : Store), (storeLookup st kk).isSome = true →
    storeLookup (List.map (fun p => if p.1 == kk then (p.1, v) else p) st)
      kk = some v := by
  intro st
  induction st with
  | nil => intro h; simp [storeLookup] at h
  | cons p rest ih =>
    intro h
    rcases p with ⟨pk, pv⟩
    rw [List.map_cons]
    dsimp only
    rw [storeLookup_cons] at h
    by_cases hpk : (pk == kk) = true
    · rw [if_pos hpk, storeLookup_cons, if_pos hpk]
    · rw [if_neg hpk] at h
      rw [if_neg hpk, storeLookup_cons, if_neg hpk]
      exact ih h

/-- `store[k] = v` makes `store[k]` read back `v`. -/
theorem storeLookup_insert_self (st : Store) (k : String) (v : Value) :
    storeLookup (storeInsert st k v) k = some v := by
  rw [storeInsert]
  by_cases hm : storeMem st k
  · rw [if_pos hm]
    rw [storeMem] at hm
    exact storeLookup_overwrite_self k v st hm
  · rw [if_neg hm]
    rw [storeLookup, List.find?_append]
    have hnone : List.find? (fun p => p.1 == k) st = none := by
      rw [storeMem, storeLookup] at hm
      cases hf : List.find? (fun p => p.1 == k) st with
      | none => rfl
      | some p => rw [hf] at hm; simp at hm
    rw [hnone]
    simp [List.find?]

/-- Document selection never removes a store entry: the store it returns
is the incoming store, possibly extended by the one cache write. -/
theorem selectDocument_store_mono
    (urlopenJson : String → Except PyErr Value) (r : RefResolver)
    (uri nuri : String) (sch : Value) (st2 : Store)
    (hsel : selectDocument urlopenJson r uri nuri = .ok (sch, st2)) :
    ∀ k, (storeLookup r.store k).isSome = true →
      (storeLookup st2 k).isSome = true := by
  intro k hk
  rw [selectDocument] at hsel
  cases hl : storeLookup r.store nuri with
  | some s =>
    rw [hl] at hsel
    injection hsel with h
    have h2 : r.store = st2 := congrArg Prod.snd h
    rw [← h2]
    exact hk
  | none =>
    rw [hl] at hsel
    by_cases hroot : uri = "" || uri = r.base_uri
    · rw [if_pos hroot] at hsel
      injection hsel with h
      have h2 : r.store = st2 := congrArg Prod.snd h
      rw [← h2]
      exact hk
    · rw [if_neg hroot] at hsel
      cases hf : resolve_remote urlopenJson r.handlers uri with
      | error e => rw [hf] at hsel; cases hsel
      | ok d =>
        rw [hf] at hsel
        dsimp only at hsel
        by_cases hc : r.cache
        · rw [if_pos hc] at hsel
          by_cases hs : (urlsplit nuri "" true).scheme ≠ "internal-no-cache"
          · rw [if_pos hs] at hsel
            injection hsel with h
            have h2 : storeInsert r.store nuri d = st2 := congrArg Prod.snd h
            rw [← h2]
            exact storeInsert_mem_preserved r.store nuri d k hk
          · rw [if_neg hs] at hsel
            injection hsel with h
            have h2 : r.store = st2 := congrArg Prod.snd h
            rw [← h2]
            exact hk
        · rw [if_neg hc] at hsel
          injection hsel with h
          have h2 : r.store = st2 := congrArg Prod.snd h
          rw [← h2]
          exact hk

/-- On a resolver flagged as holding the module-level default dict, a
`resolving` call starts from the dict's current contents and the dict's
new contents are the store state the call leaves behind. -/
theorem resolvingShared_default {β : Type}
    (urlopenJson : String → Except PyErr Value) (g : Store)
    (r : RefResolver) (ref : String)
    (body : Value → RefResolver → Except PyErr β × RefResolver)
    (hflag : r.store_is_default = true) :
    resolvingShared urlopenJson g r ref body =
      ((resolvingWith urlopenJson { r with store := g } ref body).1,
       (resolvingWith urlopenJson { r with store := g } ref body).2,
       (resolvingWith urlopenJson { r with store := g } ref body).2.store)
    := by
  rw [resolvingShared, hflag]
  rfl

/-- A `resolving` call on a default-store resolver never removes an
entry from the shared default dict. -/
theorem resolvingShared_mono (urlopenJson : String → Except PyErr Value)
    (g : Store) (r : RefResolver) (ref : String)
    (hflag : r.store_is_default = true) :
    ∀ k, (storeLookup g k).isSome = true →
      (storeLookup (resolvingShared urlopenJson g r ref passBody).2.2
        k).isSome = true := by
  intro k hk
  rw [resolvingShared_default urlopenJson g r ref passBody hflag]
  dsimp only
  rw [resolvingWith]
  dsimp only
  rcases hdf : urldefrag (fixed_urljoin r.resolution_scope ref) with
    ⟨uri, frag⟩
  dsimp only
  rcases hsel : selectDocument urlopenJson { r with store := g } uri
      (normalize uri) with e | ⟨sch, st2⟩
  · exact hk
  · dsimp only
    have hmono := selectDocument_store_mono urlopenJson
      { r with store := g } uri (normalize uri) sch st2 hsel k
    rcases hrp : resolve_path sch frag with e | v <;>
      dsimp only [passBody] <;>
      exact hmono hk

/-- The fetch-and-cache path of a `resolving` call on a default-store
resolver: the fetched document is written to the shared default dict
under the normalized URI. -/
theorem resolvingShared_caches (urlopenJson : String → Except PyErr Value)
    (g : Store) (r : RefResolver) (ref uri frag : String) (d : Value)
    (hflag : r.store_is_default = true)
    (hdf : urldefrag (fixed_urljoin r.resolution_scope ref) = (uri, frag))
    (hmiss : storeLookup g (normalize uri) = none)
    (hroot : ¬ (uri = "" || uri = r.base_uri))
    (hfetch : resolve_remote urlopenJson r.handlers uri = .ok d)
    (hcache : r.cache = true)
    (hscheme : (urlsplit (normalize uri) "" true).scheme ≠
      "internal-no-cache") :
    storeLookup (resolvingShared urlopenJson g r ref passBody).2.2
      (normalize uri) = some d := by
  have hsel : selectDocument urlopenJson { r with store := g } uri
      (normalize uri) = .ok (d, storeInsert g (normalize uri) d) := by
    rw [selectDocument]
    dsimp only
    rw [hmiss]
    dsimp only
    rw [if_neg hroot, hfetch]
    dsimp only
    rw [if_pos hcache, if_pos hscheme]
  rw [resolvingShared_default urlopenJson g r ref passBody hflag]
  dsimp only
  rw [resolvingWith]
  dsimp only
  rw [hdf]
  dsimp only
  rw [hsel]
  dsimp only
  rcases hrp : resolve_path d frag with e | v <;>
    dsimp only [passBody] <;>
    exact storeLookup_insert_self g (normalize uri) d

/-- The store-hit path of a `resolving` call on a default-store
resolver: the document is taken from the shared default dict, whatever
the fetch oracle would return. -/
theorem resolvingShared_reads (urlopenJson : String → Except PyErr Value)
    (g : Store) (r : RefResolver) (ref uri frag : String) (sch : Value)
    (hflag : r.store_is_default = true)
    (hdf : urldefrag (fixed_urljoin r.resolution_scope ref) = (uri, frag))
    (hhit : storeLookup g (normalize uri) = some sch) :
    (resolvingShared urlopenJson g r ref passBody).1 =
      resolve_path sch frag := by
  have hsel : selectDocument urlopenJson { r with store := g } uri
      (normalize uri) = .ok (sch, g) := by
    rw [selectDocument]
    dsimp only
    rw [hhit]
  rw [resolvingShared_default urlopenJson g r ref passBody hflag]
  dsimp only
  rw [resolvingWith]
  dsimp only
  rw [hdf]
  dsimp only
  rw [hsel]
  dsimp only
  rcases hrp : resolve_path sch frag with e | v <;>
    dsimp only [passBody]

/-- C9: two `RefResolver`s constructed without an explicit `store`
argument alias the single module-level default dict (`store={}` is
evaluated once, at function-definition time): both are flagged as using
the default store and their effective stores are one and the same;
every URI-to-schema entry present after the first constructor's walk is
still present after the second constructor's walk; a `resolving` call
on the second resolver never removes an entry from the shared dict and,
on the fetch path with caching in force, writes the fetched document
into the shared dict under the normalized URI — the very store the
first resolver reads; and a `resolving` call on either resolver whose
normalized target URI is a key of the shared dict's current contents
takes the document from the shared dict, whatever the fetch oracle
would return.  The default store is process state, not freshly
allocated per resolver. -/
theorem default_store_shared (g : Store) (b1 b2 : String) (s1 s2 : Value)
    (c1 c2 : Bool) (hd1 hd2 : Handlers) (r1 r2 : RefResolver)
    (g1 g2 : Store)
    (hinit1 : RefResolver.init b1 s1 none c1 hd1 g = .ok (r1, g1))
    (hinit2 : RefResolver.init b2 s2 none c2 hd2 g1 = .ok (r2, g2)) :
    (r1.store_is_default = true ∧ r2.store_is_default = true) ∧
    effStore r1 g2 = effStore r2 g2 ∧
    (∀ k, (storeLookup g1 k).isSome = true →
      (storeLookup g2 k).isSome = true) ∧
    (∀ (urlopenJson : String → Except PyErr Value) (ref k : String),
      (storeLookup g2 k).isSome = true →
      (storeLookup (resolvingShared urlopenJson g2 r2 ref passBody).2.2
        k).isSome = true) ∧
    (∀ (urlopenJson : String → Except PyErr Value)
      (ref uri frag : String) (d : Value),
      urldefrag (fixed_urljoin r2.resolution_scope ref) = (uri, frag) →
      storeLookup g2 (normalize uri) = none →
      ¬ (uri = "" || uri = r2.base_uri) →
      resolve_remote urlopenJson r2.handlers uri = .ok d →
      r2.cache = true →
      (urlsplit (normalize uri) "" true).scheme ≠ "internal-no-cache" →
      storeLookup (resolvingShared urlopenJson g2 r2 ref passBody).2.2
          (normalize uri) = some d ∧
        effStore r1
            (resolvingShared urlopenJson g2 r2 ref passBody).2.2 =
          (resolvingShared urlopenJson g2 r2 ref passBody).2.2) ∧
    (∀ (gc : Store) (urlopenJson : String → Except PyErr Value)
      (ref uri frag : String) (sch : Value),
      urldefrag (fixed_urljoin r2.resolution_scope ref) = (uri, frag) →
      storeLookup gc (normalize uri) = some sch →
      (resolvingShared urlopenJson gc r2 ref passBody).1 =
        resolve_path sch frag) ∧
    (∀ (gc : Store) (urlopenJson : String → Except PyErr Value)
      (ref uri frag : String) (sch : Value),
      urldefrag (fixed_urljoin r1.resolution_scope ref) = (uri, frag) →
      storeLookup gc (normalize uri) = some sch →
      (resolvingShared urlopenJson gc r1 ref passBody).1 =
        resolve_path sch frag) := by
  rw [RefResolver.init] at hinit1 hinit2
  cases hw1 : RefResolver.walk b1 g s1 with
  | error e => rw [hw1] at hinit1; cases hinit1
  | ok p1 =>
    rw [hw1] at hinit1
    rcases p1 with ⟨sch1, st1⟩
    injection hinit1 with h1
    have hr1 : _ = r1 := congrArg Prod.fst h1
    have hg1 : st1 = g1 := congrArg Prod.snd h1
    cases hw2 : RefResolver.walk b2 g1 s2 with
    | error e => rw [hw2] at hinit2; cases hinit2
    | ok p2 =>
      rw [hw2] at hinit2
      rcases p2 with ⟨sch2, st2⟩
      injection hinit2 with h2
      have hr2 : _ = r2 := congrArg Prod.fst h2
      have hg2 : st2 = g2 := congrArg Prod.snd h2
      have hflag1 : r1.store_is_default = true := by rw [← hr1]; rfl
      have hflag2 : r2.store_is_default = true := by rw [← hr2]; rfl
      refine ⟨⟨hflag1, hflag2⟩, ?_, ?_, ?_, ?_, ?_, ?_⟩
      · rw [effStore, effStore, ← hr1, ← hr2]
        rfl
      · intro k hk
        rw [← hg2]
        cases s2 with
        | bool b =>
          rw [RefResolver.walk] at hw2
          injection hw2 with hw2e
          have : g1 = st2 := congrArg Prod.snd hw2e
          rw [← this]; exact hk
        | obj fields =>
          rw [RefResolver.walk] at hw2
          injection hw2 with hw2e
          have : applyWrites g1 (walkV b2 (.obj fields)).2 = st2 :=
            congrArg Prod.snd hw2e
          rw [← this]
          exact applyWrites_mem_preserved _ _ _ hk
        | null => simp [RefResolver.walk] at hw2
        | num n => simp [RefResolver.walk] at hw2
        | str s => simp [RefResolver.walk] at hw2
        | arr xs => simp [RefResolver.walk] at hw2
      · intro urlopenJson ref k hk
        exact resolvingShared_mono urlopenJson g2 r2 ref hflag2 k hk
      · intro urlopenJson ref uri frag d hdf hmiss hroot hfetch hcache
          hscheme
        refine ⟨resolvingShared_caches urlopenJson g2 r2 ref uri frag d
          hflag2 hdf hmiss hroot hfetch hcache hscheme, ?_⟩
        rw [effStore, if_pos hflag1]
      · intro gc urlopenJson ref uri frag sch hdf hhit
        exact resolvingShared_reads urlopenJson gc r2 ref uri frag sch
          hflag2 hdf hhit
      · intro gc urlopenJson ref uri frag sch hdf hhit
        exact resolvingShared_reads urlopenJson gc r1 ref uri frag sch
          hflag1 hdf hhit

def noHandlers : Handlers := fun _ => none

def c9schema : Value := .obj [("$id", .str "u://a")]

def c9doc : Value := .num 7

def c9uf : String → Except PyErr Value := fun _ => .ok c9doc

def c9fetchFail : String → Except PyErr Value :=
  fun _ => .error (.ioError "network unreachable")

def c9g2 : Store := [("u://a", c9schema)]

def c9g3 : Store := [("u://a", c9schema), ("d://x/doc", c9doc)]

def c9r1 : RefResolver :=
  { base_uri := ""
    resolution_scope := ""
    schema := c9schema
    store := [("u://a", c9schema)]
    cache := true
    handlers := noHandlers
    store_is_default := true
    unique_name_registry := []
    unique_names_taken := [] }

def c9r2 : RefResolver :=
  { base_uri := "x"
    resolution_scope := "x"
    schema := .bool true
    store := [("u://a", c9schema)]
    cache := true
    handlers := noHandlers
    store_is_default := true
    unique_name_registry := []
    unique_names_taken := [] }

/-- Witness for C9: a first default-store resolver's constructor walks
`$id: "u://a"` into the shared default dict; a second default-store
resolver constructed afterwards reads that entry through `resolving`
even with a failing fetch oracle; a `resolving` call on the second
resolver fetches `d://x/doc` and caches it into the shared dict, the
store the first resolver reads, preserving the existing entry; and the
first resolver then reads the cached document through `resolving`,
again with a failing fetch oracle. -/
theorem default_store_shared_witness :
    RefResolver.init "" c9schema none true noHandlers [] =
      .ok (c9r1, c9g2) ∧
    RefResolver.init "x" (.bool true) none true noHandlers c9g2 =
      .ok (c9r2, c9g2) ∧
    (c9r1.store_is_default = true ∧ c9r2.store_is_default = true) ∧
    effStore c9r1 c9g2 = effStore c9r2 c9g2 ∧
    (storeLookup c9g2 "u://a").isSome = true ∧
    (resolvingShared c9fetchFail c9g2 c9r2 "u://a" passBody).1 =
      resolve_path c9schema "" ∧
    resolve_path c9schema "" = .ok c9schema ∧
    (resolvingShared c9uf c9g2 c9r2 "d://x/doc" passBody).2.2 = c9g3 ∧
    storeLookup (resolvingShared c9uf c9g2 c9r2 "d://x/doc" passBody).2.2
      "d://x/doc" = some c9doc ∧
    effStore c9r1
        (resolvingShared c9uf c9g2 c9r2 "d://x/doc" passBody).2.2 =
      (resolvingShared c9uf c9g2 c9r2 "d://x/doc" passBody).2.2 ∧
    (storeLookup (resolvingShared c9uf c9g2 c9r2 "d://x/doc" passBody).2.2
      "u://a").isSome = true ∧
    (resolvingShared c9fetchFail c9g3 c9r1 "d://x/doc" passBody).1 =
      resolve_path c9doc "" ∧
    resolve_path c9doc "" = .ok c9doc := by
  have hi1 : RefResolver.init "" c9schema none true noHandlers [] =
      .ok (c9r1, c9g2) := rfl
  have hi2 : RefResolver.init "x" (.bool true) none true noHandlers c9g2 =
      .ok (c9r2, c9g2) := rfl
  have h := default_store_shared [] "" "x" c9schema (.bool true) true true
    noHandlers noHandlers c9r1 c9r2 c9g2 c9g2 hi1 hi2
  refine ⟨hi1, hi2, h.1, h.2.1, h.2.2.1 "u://a" rfl, ?_, rfl, rfl, ?_,
    ?_, ?_, ?_, rfl⟩
  · exact h.2.2.2.2.2.1 c9g2 c9fetchFail "u://a" "u://a" "" c9schema
      rfl rfl
  · exact (h.2.2.2.2.1 c9uf "d://x/doc" "d://x/doc" "" c9doc rfl rfl
      (by decide) rfl rfl (by decide)).1
  · exact (h.2.2.2.2.1 c9uf "d://x/doc" "d://x/doc" "" c9doc rfl rfl
      (by decide) rfl rfl (by decide)).2
  · exact h.2.2.2.1 c9uf "d://x/doc" "u://a" rfl
  · exact h.2.2.2.2.2.2 c9g3 c9fetchFail "d://x/doc" "d://x/doc" ""
      c9doc rfl rfl

/-- C10: `get_id` returns the `$id` value when that key is present, else
the `id` value when present, else the empty string; `from_schema` passes
exactly this value as the constructor's `base_uri` for a mapping schema
and the empty string for a non-mapping schema, and the constructed
resolver's `base_uri` is that value. -/
theorem get_id_and_from_schema_base_uri (schema : Value) :
    (∀ fields v, schema = .obj fields → lookupField fields "$id" = some v →
      get_id schema = v) ∧
    (∀ fields v, schema = .obj fields → lookupField fields "$id" = none →
      lookupField fields "id" = some v → get_id schema = v) ∧
    (∀ fields, schema = .obj fields → lookupField fields "$id" = none →
      lookupField fields "id" = none → get_id schema = .str "") ∧
    ((∀ fields, schema ≠ .obj fields) → fromSchemaBase schema = .str "") ∧
    (∀ fields, schema = .obj fields → fromSchemaBase schema = get_id schema) ∧
    (∀ storeArg cache handlers g r g2 s,
      fromSchemaBase schema = .str s →
      RefResolver.from_schema schema storeArg cache handlers g =
        .ok (r, g2) →
      r.base_uri = s) := by
  refine ⟨?_, ?_, ?_, ?_, ?_, ?_⟩
  · intro fields v hx hlook
    subst hx
    simp only [get_id, hlook]
  · intro fields v hx hlook1 hlook2
    subst hx
    simp only [get_id, hlook1, hlook2]
  · intro fields hx hlook1 hlook2
    subst hx
    simp only [get_id, hlook1, hlook2]
  · intro hne
    cases schema with
    | obj fields => exact absurd rfl (hne fields)
    | null => rfl
    | bool b => rfl
    | num n => rfl
    | str s => rfl
    | arr xs => rfl
  · intro fields hx
    subst hx
    rfl
  · intro storeArg cache handlers g r g2 s hbase hfs
    rw [RefResolver.from_schema, hbase] at hfs
    dsimp only at hfs
    rw [RefResolver.init.eq_def] at hfs
    cases storeArg with
    | some st =>
      dsimp only at hfs
      cases hw : RefResolver.walk s st schema with
      | error e => rw [hw] at hfs; cases hfs
      | ok p =>
        rw [hw] at hfs
        rcases p with ⟨sch, stw⟩
        injection hfs with hp
        have hr : _ = r := congrArg Prod.fst hp
        rw [← hr]
    | none =>
      dsimp only at hfs
      cases hw : RefResolver.walk s g schema with
      | error e => rw [hw] at hfs; cases hfs
      | ok p =>
        rw [hw] at hfs
        rcases p with ⟨sch, stw⟩
        injection hfs with hp
        have hr : _ = r := congrArg Prod.fst hp
        rw [← hr]

def c10schema : Value := .obj [("$id", .str "u://x"), ("id", .str "ig")]

def c10r : RefResolver :=
  { base_uri := "u://x"
    resolution_scope := "u://x"
    schema := c10schema
    store := [("u://x", c10schema)]
    cache := true
    handlers := noHandlers
    store_is_default := false
    unique_name_registry := []
    unique_names_taken := [] }

/-- Witness for C10: `$id` wins over `id`; `id` is used when `$id` is
absent; both absent yields `''`; a boolean schema yields `''`; and the
resolver constructed by `from_schema` has the `$id` value as its
`base_uri`. -/
theorem get_id_and_from_schema_base_uri_witness :
    get_id c10schema = .str "u://x" ∧
    get_id (.obj [("id", .str "i2")]) = .str "i2" ∧
    get_id (.obj []) = .str "" ∧
    fromSchemaBase (.bool true) = .str "" ∧
    RefResolver.from_schema c10schema (some []) true noHandlers [] =
      .ok (c10r, []) ∧
    c10r.base_uri = "u://x" := by
  refine ⟨?_, ?_, ?_, ?_, rfl, ?_⟩
  · exact (get_id_and_from_schema_base_uri c10schema).1 _ _ rfl rfl
  · exact (get_id_and_from_schema_base_uri _).2.1 _ _ rfl rfl rfl
  · exact (get_id_and_from_schema_base_uri _).2.2.1 _ rfl rfl rfl
  · exact (get_id_and_from_schema_base_uri _).2.2.2.1
      (fun _ h => Value.noConfusion h)
  · exact (get_id_and_from_schema_base_uri c10schema).2.2.2.2.2
      (some []) true noHandlers [] c10r [] "u://x" rfl rfl

/-! ## Lemmas: the `walk` pass -/

/-- What `walk` makes of one dict field value: dict values are walked,
everything else is left alone. -/
def walkItem (scope : String) (v : Value) : Value :=
  match v with
  | .obj fs => (walkV scope (.obj fs)).1
  | v => v

theorem walkFields_cons (scope : String) (pk : String) (pv : Value)
    (rest : List (String × Value)) :
    walkFields scope ((pk, pv) :: rest) =
      ((pk, walkItem scope pv) :: (walkFields scope rest).1,
       (match pv with
        | .obj fs => (walkV scope (.obj fs)).2
        | _ => []) ++ (walkFields scope rest).2) := by
  cases pv <;> rfl

theorem walkV_obj_shape (scope : String) (fs : List (String × Value)) :
    ∃ gs, (walkV scope (.obj fs)).1 = .obj gs := by
  rw [walkV]
  cases refBranch fs with
  | some ref => exact ⟨_, rfl⟩
  | none =>
    cases idBranch fs with
    | some idStr => exact ⟨_, rfl⟩
    | none => exact ⟨_, rfl⟩

theorem lookupField_cons (a : String) (b : Value)
    (rest : List (String × Value)) (k : String) :
    lookupField ((a, b) :: rest) k =
      if a == k then some b else lookupField rest k := by
  cases h : (a == k) <;> simp [lookupField, List.find?, h]

theorem lookupField_setField (k : String) (v : Value) :
    ∀ (fs : List (String × Value)),
    lookupField (setField fs k v) k =
      (lookupField fs k).map (fun _ => v) := by
  intro fs
  induction fs with
  | nil => rfl
  | cons p rest ih =>
    rcases p with ⟨pk, pv⟩
    rw [setField, List.map_cons]
    by_cases h : (pk == k)
    · have hifpos : ((pk, pv) : String × Value).1 == k := h
      simp only [if_pos hifpos]
      rw [lookupField_cons, lookupField_cons, if_pos h, if_pos h]
      rfl
    · have hifneg : ¬ (((pk, pv) : String × Value).1 == k) = true := h
      simp only [if_neg hifneg]
      rw [lookupField_cons, lookupField_cons, if_neg h, if_neg h]
      rw [← setField]
      exact ih

theorem lookupField_walkFields (scope : String) :
    ∀ (l : List (String × Value)) (k : String),
    lookupField ((walkFields scope l).1) k =
      (lookupField l k).map (walkItem scope) := by
  intro l
  induction l with
  | nil => intro k; rfl
  | cons p rest ih =>
    intro k
    rcases p with ⟨pk, pv⟩
    rw [walkFields_cons]
    rw [lookupField_cons, lookupField_cons]
    by_cases h : (pk == k)
    · rw [if_pos h, if_pos h]; rfl
    · rw [if_neg h, if_neg h]; exact ih k

theorem refBranch_walkFields (scope : String) (l : List (String × Value))
    (h : refBranch l = none) :
    refBranch ((walkFields scope l).1) = none := by
  rw [refBranch] at h ⊢
  rw [lookupField_walkFields]
  cases hl : lookupField l "$ref" with
  | none => rfl
  | some v =>
    rw [hl] at h
    cases v with
    | str s => simp at h
    | obj fs =>
      obtain ⟨gs, hgs⟩ := walkV_obj_shape scope fs
      simp only [Option.map_some', walkItem, hgs]
    | null => rfl
    | bool b => rfl
    | num n => rfl
    | arr xs => rfl

theorem get_id_walkFields (scope : String) (l : List (String × Value)) :
    get_id (.obj ((walkFields scope l).1)) =
      walkItem scope (get_id (.obj l)) := by
  simp only [get_id, lookupField_walkFields]
  cases hid : lookupField l "$id" with
  | some v => simp
  | none =>
    simp only [Option.map_none']
    cases hid2 : lookupField l "id" with
    | some v => simp
    | none => simp [walkItem]

theorem idBranch_walkFields (scope : String) (l : List (String × Value)) :
    idBranch ((walkFields scope l).1) = idBranch l := by
  rw [idBranch, idBranch, hasKey, hasKey, hasKey, hasKey,
    lookupField_walkFields, lookupField_walkFields, get_id_walkFields]
  have hc : ((lookupField l "$id").map (walkItem scope)).isSome =
      (lookupField l "$id").isSome := by
    cases lookupField l "$id" <;> rfl
  have hc2 : ((lookupField l "id").map (walkItem scope)).isSome =
      (lookupField l "id").isSome := by
    cases lookupField l "id" <;> rfl
  rw [hc, hc2]
  cases hcond : ((lookupField l "$id").isSome || (lookupField l "id").isSome)
  · rfl
  · simp only [if_pos]
    cases hg : get_id (.obj l) with
    | str s => rfl
    | obj fs =>
      obtain ⟨gs, hgs⟩ := walkV_obj_shape scope fs
      simp [walkItem, hgs]
    | null => rfl
    | bool b => rfl
    | num n => rfl
    | arr xs => rfl

theorem refBranch_setRef (fields : List (String × Value)) (ref x : String)
    (h : refBranch fields = some ref) :
    refBranch (setField fields "$ref" (.str x)) = some x := by
  rw [refBranch] at h ⊢
  rw [lookupField_setField]
  cases hl : lookupField fields "$ref" with
  | none => rw [hl] at h; simp at h
  | some v => rfl

theorem collectRefsFields_cons_obj (scope : String) (pk : String)
    (fs : List (String × Value)) (rest : List (String × Value)) :
    collectRefsFields scope ((pk, .obj fs) :: rest) =
      collectRefs scope (.obj fs) ++ collectRefsFields scope rest := rfl

theorem collectRefsFields_cons_other (scope : String) (pk : String)
    (pv : Value) (rest : List (String × Value))
    (h : ∀ fs, pv ≠ .obj fs) :
    collectRefsFields scope ((pk, pv) :: rest) =
      collectRefsFields scope rest := by
  cases pv with
  | obj fs => exact absurd rfl (h fs)
  | null => rfl
  | bool b => rfl
  | num n => rfl
  | str s => rfl
  | arr xs => rfl

theorem collectIdFields_cons_obj (scope : String) (pk : String)
    (fs : List (String × Value)) (rest : List (String × Value)) :
    collectIdFields scope ((pk, .obj fs) :: rest) =
      collectIdScopes scope (.obj fs) ++ collectIdFields scope rest := rfl

theorem collectIdFields_cons_other (scope : String) (pk : String)
    (pv : Value) (rest : List (String × Value))
    (h : ∀ fs, pv ≠ .obj fs) :
    collectIdFields scope ((pk, pv) :: rest) =
      collectIdFields scope rest := by
  cases pv with
  | obj fs => exact absurd rfl (h fs)
  | null => rfl
  | bool b => rfl
  | num n => rfl
  | str s => rfl
  | arr xs => rfl

mutual

/-- The tree `walk` returns carries, at each node it visits, the `$ref`
joined against the scope current there; and the store writes it performs
are keyed by the normalized joined scopes of the visited `$id`/`id`
nodes, in visit order. -/
theorem walkV_spec (scope : String) (v : Value) :
    collectRefs scope (walkV scope v).1 =
      (collectRefs scope v).map (fun p => (p.1, fixed_urljoin p.1 p.2)) ∧
    ((walkV scope v).2).map Prod.fst = collectIdScopes scope v := by
  cases v with
  | obj fields =>
    cases href : refBranch fields with
    | some ref =>
      constructor
      · rw [walkV, href]
        dsimp only
        rw [collectRefs, refBranch_setRef fields ref _ href]
        rw [collectRefs, href]
        rfl
      · rw [walkV, href]
        dsimp only
        rw [collectIdScopes, href]
        rfl
    | none =>
      cases hid : idBranch fields with
      | some idStr =>
        obtain ⟨hrefs, hids⟩ := walkFields_spec (fixed_urljoin scope idStr)
          fields
        constructor
        · rw [walkV, href, hid]
          dsimp only
          rw [collectRefs,
            refBranch_walkFields (fixed_urljoin scope idStr) fields href,
            idBranch_walkFields (fixed_urljoin scope idStr) fields, hid]
          rw [collectRefs, href, hid]
          exact hrefs
        · rw [walkV, href, hid]
          dsimp only
          rw [collectIdScopes, href, hid, List.map_cons, hids]
      | none =>
        obtain ⟨hrefs, hids⟩ := walkFields_spec scope fields
        constructor
        · rw [walkV, href, hid]
          dsimp only
          rw [collectRefs, refBranch_walkFields scope fields href,
            idBranch_walkFields scope fields, hid]
          rw [collectRefs, href, hid]
          exact hrefs
        · rw [walkV, href, hid]
          dsimp only
          rw [collectIdScopes, href, hid]
          exact hids
  | null => exact ⟨rfl, rfl⟩
  | bool b => exact ⟨rfl, rfl⟩
  | num n => exact ⟨rfl, rfl⟩
  | str s => exact ⟨rfl, rfl⟩
  | arr xs => exact ⟨rfl, rfl⟩

theorem walkFields_spec (scope : String) (l : List (String × Value)) :
    collectRefsFields scope ((walkFields scope l).1) =
      (collectRefsFields scope l).map
        (fun p => (p.1, fixed_urljoin p.1 p.2)) ∧
    ((walkFields scope l).2).map Prod.fst = collectIdFields scope l := by
  cases l with
  | nil => exact ⟨rfl, rfl⟩
  | cons p rest =>
    rcases p with ⟨pk, pv⟩
    obtain ⟨hr_rest, hi_rest⟩ := walkFields_spec scope rest
    cases pv with
    | obj fs =>
      obtain ⟨hr_v, hi_v⟩ := walkV_spec scope (.obj fs)
      obtain ⟨gs, hgs⟩ := walkV_obj_shape scope fs
      constructor
      · rw [walkFields_cons]
        dsimp only
        rw [show walkItem scope (.obj fs) = .obj gs from hgs,
          collectRefsFields_cons_obj, ← hgs, hr_v,
          collectRefsFields_cons_obj, hr_rest, List.map_append]
      · rw [walkFields_cons]
        dsimp only
        rw [List.map_append, hi_v, hi_rest, collectIdFields_cons_obj]
    | null =>
      constructor
      · rw [walkFields_cons]
        dsimp only
        rw [show walkItem scope Value.null = Value.null from rfl,
          collectRefsFields_cons_other _ _ _ _ (fun _ h => Value.noConfusion h),
          collectRefsFields_cons_other _ _ _ _ (fun _ h => Value.noConfusion h),
          hr_rest]
      · rw [walkFields_cons]
        dsimp only
        rw [List.nil_append,
          collectIdFields_cons_other _ _ _ _ (fun _ h => Value.noConfusion h)]
        exact hi_rest
    | bool b =>
      constructor
      · rw [walkFields_cons]
        dsimp only
        rw [show walkItem scope (Value.bool b) = Value.bool b from rfl,
          collectRefsFields_cons_other _ _ _ _ (fun _ h => Value.noConfusion h),
          collectRefsFields_cons_other _ _ _ _ (fun _ h => Value.noConfusion h),
          hr_rest]
      · rw [walkFields_cons]
        dsimp only
        rw [List.nil_append,
          collectIdFields_cons_other _ _ _ _ (fun _ h => Value.noConfusion h)]
        exact hi_rest
    | num n =>
      constructor
      · rw [walkFields_cons]
        dsimp only
        rw [show walkItem scope (Value.num n) = Value.num n from rfl,
          collectRefsFields_cons_other _ _ _ _ (fun _ h => Value.noConfusion h),
          collectRefsFields_cons_other _ _ _ _ (fun _ h => Value.noConfusion h),
          hr_rest]
      · rw [walkFields_cons]
        dsimp only
        rw [List.nil_append,
          collectIdFields_cons_other _ _ _ _ (fun _ h => Value.noConfusion h)]
        exact hi_rest
    | str s =>
      constructor
      · rw [walkFields_cons]
        dsimp only
        rw [show walkItem scope (Value.str s) = Value.str s from rfl,
          collectRefsFields_cons_other _ _ _ _ (fun _ h => Value.noConfusion h),
          collectRefsFields_cons_other _ _ _ _ (fun _ h => Value.noConfusion h),
          hr_rest]
      · rw [walkFields_cons]
        dsimp only
        rw [List.nil_append,
          collectIdFields_cons_other _ _ _ _ (fun _ h => Value.noConfusion h)]
        exact hi_rest
    | arr xs =>
      constructor
      · rw [walkFields_cons]
        dsimp only
        rw [show walkItem scope (Value.arr xs) = Value.arr xs from rfl,
          collectRefsFields_cons_other _ _ _ _ (fun _ h => Value.noConfusion h),
          collectRefsFields_cons_other _ _ _ _ (fun _ h => Value.noConfusion h),
          hr_rest]
      · rw [walkFields_cons]
        dsimp only
        rw [List.nil_append,
          collectIdFields_cons_other _ _ _ _ (fun _ h => Value.noConfusion h)]
        exact hi_rest

end

/-- C2 (counterexample): the claim says *every* `$ref` string field
anywhere in the schema tree is rewritten — but `walk` recurses only into
dict-valued fields, so a `$ref` inside a list (here under `items`) is
left as-is even though joining it against the scope would change it, and
nothing is stored. -/
theorem walk_misses_refs_inside_lists :
    walkV "s://e/" (.obj [("items", .arr [.obj [("$ref", .str "x")]])]) =
      (.obj [("items", .arr [.obj [("$ref", .str "x")]])], []) ∧
    fixed_urljoin "s://e/" "x" = "s://e/x" ∧
    ("x" : String) ≠ "s://e/x" ∧
    RefResolver.walk "s://e/" []
        (.obj [("items", .arr [.obj [("$ref", .str "x")]])]) =
      .ok (.obj [("items", .arr [.obj [("$ref", .str "x")]])], []) := by
  exact ⟨rfl, rfl, by decide, rfl⟩

/-- C2 (amended): after `walk(schema)` (as run by the constructor),
every `$ref` string field of a node the walk *visits* — it does not
descend into non-dict values such as arrays, nor past a node that itself
carries a string `$ref`, and it enters the joined scope at every node
declaring a string `$id`/`id` — has been rewritten in place to the URI
obtained by joining it against the scope current at that node
(`collectRefs` lists the visited `(scope, $ref)` pairs under that visit
discipline); and the store writes performed are keyed exactly by the
normalized joined scope URIs of the visited `$id`/`id`-declaring
subschemas, in visit order (`collectIdScopes`), applied to the store by
`RefResolver.walk`. -/
theorem walk_rewrites_visited_refs_and_stores_ids (scope : String)
    (v : Value) :
    (collectRefs scope (walkV scope v).1 =
      (collectRefs scope v).map (fun p => (p.1, fixed_urljoin p.1 p.2))) ∧
    (((walkV scope v).2).map Prod.fst = collectIdScopes scope v) ∧
    (∀ (st : Store) (fields : List (String × Value)), v = .obj fields →
      RefResolver.walk scope st v =
        .ok ((walkV scope v).1, applyWrites st (walkV scope v).2)) := by
  refine ⟨(walkV_spec scope v).1, (walkV_spec scope v).2, ?_⟩
  intro st fields hv
  subst hv
  rfl

def c2schema : Value :=
  .obj [("$id", .str "u://a/"),
        ("defs", .obj [("B", .obj [("id", .str "b.json"),
                                   ("x", .obj [("$ref", .str "c")])])])]

/-- Witness for C2 (amended): a schema with a nested `$id`, an `id` and
a relative `$ref`; the visited ref is rewritten against the inner scope
and the store receives exactly the two normalized id scopes, in visit
order. -/
theorem walk_rewrites_visited_refs_and_stores_ids_witness :
    (collectRefs "" (walkV "" c2schema).1 =
      (collectRefs "" c2schema).map
        (fun p => (p.1, fixed_urljoin p.1 p.2))) ∧
    (((walkV "" c2schema).2).map Prod.fst = collectIdScopes "" c2schema) ∧
    (RefResolver.walk "" [] c2schema =
      .ok ((walkV "" c2schema).1, applyWrites [] (walkV "" c2schema).2)) ∧
    ((walkV "" c2schema).2).map Prod.fst = ["u://a/", "u://a/b.json"] ∧
    collectRefs "" (walkV "" c2schema).1 = [("u://a/b.json", "u://a/c")] := by
  refine ⟨(walk_rewrites_visited_refs_and_stores_ids "" c2schema).1,
    (walk_rewrites_visited_refs_and_stores_ids "" c2schema).2.1,
    (walk_rewrites_visited_refs_and_stores_ids "" c2schema).2.2 []
      _ rfl, by decide, ?_⟩
  rfl

end FastJsonSchema
